import Mathlib

/-!
Verification of the session-state and leaderboard synchronization subsystem of
the exploding-kitten backend (src/backend/main.go and the cardgenerator
package).  Strings are modelled as lists of characters (`Str`); the Redis
store (an external dependency, §4.1 of the spec treats it as a black box
offering hash-map and sorted-set operations) is modelled as an association
list of hashes plus one sorted-set association list.  Values written through
the go-redis client are modelled at the wire level: integers as decimal
strings, booleans as "1"/"0", nil as the empty string, exactly as the client
encodes command arguments.
-/

set_option maxRecDepth 20000

abbrev Str := List Char

/-- Association-list lookup, first match wins (Go map semantics after a
decode produce unique keys). -/
def alookup {α : Type} : List (Str × α) → Str → Option α
  | [], _ => none
  | (k, v) :: r, key => if k = key then some v else alookup r key

/-- Association-list upsert: replace the first binding of the key, or append
a new binding at the end. -/
def aset {α : Type} : List (Str × α) → Str → α → List (Str × α)
  | [], k, v => [(k, v)]
  | (k2, v2) :: r, k, v => if k2 = k then (k, v) :: r else (k2, v2) :: aset r k v

/-- Write a batch of fields left to right (HMSET semantics: later duplicate
fields win). -/
def setFields (m : List (Str × Str)) : List (Str × Str) → List (Str × Str)
  | [] => m
  | (k, v) :: rest => setFields (aset m k v) rest

/-- Card, as in main.go: a name and a type. -/
structure Card where
  name : Str
  type : Str
deriving DecidableEq

/-- GameData, as decoded by the GET /game handler. -/
structure GameData where
  score : Int
  gameCards : List Card
  hasDefuseCard : Bool
  activeCard : Option Card
deriving DecidableEq

/-- Leaderboard entry returned by getLatestLeaderboard. -/
structure LeaderboardEntry where
  userName : Str
  userScore : Int
deriving DecidableEq

/-- The Redis store: per-key field hashes and the single "leaderboard"
sorted set, kept as an association list from member to score. -/
structure Store where
  hashes : List (Str × List (Str × Str))
  zset : List (Str × Int)
deriving DecidableEq

def emptyStore : Store := ⟨[], []⟩

def hlookup (s : Store) (k : Str) : Option (List (Str × Str)) := alookup s.hashes k

/-- HGETALL: missing keys read as an empty field map. -/
def hgetAll (s : Store) (k : Str) : List (Str × Str) := (hlookup s k).getD []

/-- EXISTS on a hash key. -/
def existsKey (s : Store) (k : Str) : Bool := (hlookup s k).isSome

/-- HMSET: write the given fields into the hash at the key, creating it if
absent. -/
def hmsetS (s : Store) (k : Str) (fs : List (Str × Str)) : Store :=
  { s with hashes := aset s.hashes k (setFields (hgetAll s k) fs) }

/-- ZADD: upsert the member's score in the sorted set. -/
def zaddS (s : Store) (m : Str) (sc : Int) : Store :=
  { s with zset := (m, sc) :: s.zset.filter (fun p => decide (p.1 ≠ m)) }

/-- ZREM: drop the member from the sorted set. -/
def zremS (s : Store) (m : Str) : Store :=
  { s with zset := s.zset.filter (fun p => decide (p.1 ≠ m)) }

def zlookup (s : Store) (m : Str) : Option Int := alookup s.zset m

/-- Byte-order comparison of member names (Redis compares members as byte
arrays; on scalar values this agrees with code-point order). -/
def strLeB : Str → Str → Bool
  | [], _ => true
  | _ :: _, [] => false
  | a :: as, b :: bs =>
    if a.toNat < b.toNat then true
    else if b.toNat < a.toNat then false
    else strLeB as bs

/-- ZREVRANGE order: higher score first; among equal scores, members in
reverse byte order. -/
def entryBefore (a b : Str × Int) : Prop :=
  b.2 < a.2 ∨ (a.2 = b.2 ∧ strLeB b.1 a.1 = true)

instance : DecidableRel entryBefore := fun a b => by
  unfold entryBefore; infer_instance

/-- getLatestLeaderboard: read the sorted set in descending order and copy
it into a fresh list of entries. -/
def getLatestLeaderboard (s : Store) : List LeaderboardEntry :=
  (List.insertionSort entryBefore s.zset).map (fun p => ⟨p.1, p.2⟩)

/-! Go primitives used by the read path. -/

def isDigitC (c : Char) : Bool := 48 ≤ c.toNat && c.toNat ≤ 57

def digitVal (c : Char) : Nat := c.toNat - 48

def digitsVal (ds : Str) : Nat := ds.foldl (fun acc c => 10 * acc + digitVal c) 0

/-- Sign handling of ParseInt: an optional leading plus or minus, then the
digit string. -/
def signSplit (s : Str) : Bool × Str :=
  match s with
  | [] => (false, [])
  | c :: r =>
    if c = '+' then (false, r) else if c = '-' then (true, r) else (false, c :: r)

/-- strconv.Atoi, i.e. ParseInt(s, 10, 0) on a 64-bit platform, returning
the (value, errored) pair: syntax errors return 0, out-of-range values
return the clamped int64 bound, both with a non-nil error. -/
def goAtoiE (s : Str) : Int × Bool :=
  if (signSplit s).2 = [] then (0, true)
  else if (signSplit s).2.all isDigitC then
    if (signSplit s).1 then
      if (digitsVal (signSplit s).2 : Int) ≤ 2 ^ 63 then
        (-(digitsVal (signSplit s).2 : Int), false)
      else (-(2 ^ 63), true)
    else
      if (digitsVal (signSplit s).2 : Int) ≤ 2 ^ 63 - 1 then
        ((digitsVal (signSplit s).2 : Int), false)
      else (2 ^ 63 - 1, true)
  else (0, true)

/-- strconv.ParseBool, returning (value, errored): unrecognised strings
return false with a non-nil error. -/
def goParseBoolE (s : Str) : Bool × Bool :=
  if s = "1".data ∨ s = "t".data ∨ s = "T".data ∨ s = "true".data ∨
      s = "TRUE".data ∨ s = "True".data then (true, false)
  else if s = "0".data ∨ s = "f".data ∨ s = "F".data ∨ s = "false".data ∨
      s = "FALSE".data ∨ s = "False".data then (false, false)
  else (false, true)

/-- The decimal digit characters. -/
def digitChar (n : Nat) : Char :=
  if n = 0 then '0' else if n = 1 then '1' else if n = 2 then '2'
  else if n = 3 then '3' else if n = 4 then '4' else if n = 5 then '5'
  else if n = 6 then '6' else if n = 7 then '7' else if n = 8 then '8' else '9'

/-- Decimal rendering of a natural number (strconv/AppendInt digits), with
fuel for structural recursion; fuel at least n + 1 is always enough. -/
def natReprAux : Nat → Nat → Str
  | 0, _ => []
  | fuel + 1, n =>
    if n < 10 then [digitChar n]
    else natReprAux fuel (n / 10) ++ [digitChar (n % 10)]

def natRepr (n : Nat) : Str := natReprAux (n + 1) n

/-- Decimal rendering of an integer, as the go-redis client encodes int
command arguments. -/
def intRepr (k : Int) : Str :=
  if k < 0 then '-' :: natRepr k.natAbs else natRepr k.natAbs

/-- go-redis encoding of a bool command argument. -/
def encBool (b : Bool) : Str := if b then ['1'] else ['0']

/-! JSON values as decoded into Go interface values.  Numbers keep their
source token (the claims under verification never re-encode a non-integer
number, so the token form is never observed through a claim). -/

mutual
inductive Jval where
  | null : Jval
  | bool (b : Bool) : Jval
  | num (raw : Str) : Jval
  | str (s : Str) : Jval
  | arr (xs : Jarr) : Jval
  | obj (xs : Jobj) : Jval
inductive Jarr where
  | nil : Jarr
  | cons (v : Jval) (rest : Jarr) : Jarr
inductive Jobj where
  | nil : Jobj
  | cons (k : Str) (v : Jval) (rest : Jobj) : Jobj
end

def lbraceC : Char := Char.ofNat 123
def rbraceC : Char := Char.ofNat 125

def hexDigit (n : Nat) : Char :=
  if n < 10 then Char.ofNat (48 + n) else Char.ofNat (87 + n)

/-- encoding/json string escaping (HTML escaping on, as json.Marshal uses):
quote, backslash, control characters, angle brackets, ampersand and the two
line separators are escaped; everything else is emitted verbatim. -/
def escChar (c : Char) : Str :=
  if c = '"' then ['\\', '"']
  else if c = '\\' then ['\\', '\\']
  else if c = '\n' then ['\\', 'n']
  else if c = '\r' then ['\\', 'r']
  else if c = '\t' then ['\\', 't']
  else if c.toNat < 32 ∨ c = '<' ∨ c = '>' ∨ c = '&' then
    ['\\', 'u', '0', '0', hexDigit (c.toNat / 16), hexDigit (c.toNat % 16)]
  else if c.toNat = 0x2028 then ['\\', 'u', '2', '0', '2', '8']
  else if c.toNat = 0x2029 then ['\\', 'u', '2', '0', '2', '9']
  else [c]

def escStr (s : Str) : Str := s.foldr (fun c acc => escChar c ++ acc) []

def printStr (s : Str) : Str := '"' :: escStr s ++ ['"']

/-- Insertion into an object sorted by key, byte order (json.Marshal sorts
map keys with sort.Strings). -/
def objInsert (k : Str) (v : Jval) : Jobj → Jobj
  | .nil => .cons k v .nil
  | .cons k2 v2 rest =>
    if strLeB k k2 then .cons k v (.cons k2 v2 rest)
    else .cons k2 v2 (objInsert k v rest)

def sortObjEntries : Jobj → Jobj
  | .nil => .nil
  | .cons k v rest => objInsert k v (sortObjEntries rest)

/-! json.Marshal sorts the keys of every map it encounters; deepSort applies
that normalisation to a decoded value before printing. -/
mutual
def deepSort : Jval → Jval
  | .null => .null
  | .bool b => .bool b
  | .num raw => .num raw
  | .str s => .str s
  | .arr xs => .arr (deepSortArr xs)
  | .obj xs => .obj (sortObjEntries (deepSortObj xs))
def deepSortArr : Jarr → Jarr
  | .nil => .nil
  | .cons v rest => .cons (deepSort v) (deepSortArr rest)
def deepSortObj : Jobj → Jobj
  | .nil => .nil
  | .cons k v rest => .cons k (deepSort v) (deepSortObj rest)
end

mutual
def printJval : Jval → Str
  | .null => "null".data
  | .bool true => "true".data
  | .bool false => "false".data
  | .num raw => raw
  | .str s => printStr s
  | .arr xs => '[' :: printArrItems xs ++ [']']
  | .obj xs => lbraceC :: printObjItems xs ++ [rbraceC]
def printArrItems : Jarr → Str
  | .nil => []
  | .cons v rest =>
    printJval v ++ (match rest with
      | .nil => []
      | .cons _ _ => ',' :: printArrItems rest)
def printObjItems : Jobj → Str
  | .nil => []
  | .cons k v rest =>
    printStr k ++ ':' :: printJval v ++ (match rest with
      | .nil => []
      | .cons _ _ _ => ',' :: printObjItems rest)
end

/-- json.Marshal of a decoded interface value. -/
def marshalJval (v : Jval) : Str := printJval (deepSort v)

/-! The JSON parser, faithful to the encoding/json grammar: strict number
syntax, strict escape syntax, surrogate-pair handling with U+FFFD for
unpaired halves, and no trailing data after the top-level value. -/

def isWsC (c : Char) : Bool := c = ' ' || c = '\t' || c = '\n' || c = '\r'

def skipWs : Str → Str
  | [] => []
  | c :: r => if isWsC c then skipWs r else c :: r

def hexVal (c : Char) : Option Nat :=
  if 48 ≤ c.toNat ∧ c.toNat ≤ 57 then some (c.toNat - 48)
  else if 97 ≤ c.toNat ∧ c.toNat ≤ 102 then some (c.toNat - 87)
  else if 65 ≤ c.toNat ∧ c.toNat ≤ 70 then some (c.toNat - 55)
  else none

def hex4 (a b c d : Char) : Option Nat := do
  let x1 ← hexVal a
  let x2 ← hexVal b
  let x3 ← hexVal c
  let x4 ← hexVal d
  pure (((x1 * 16 + x2) * 16 + x3) * 16 + x4)

/-- Body of a JSON string literal after the opening quote, returning the
decoded characters and the rest of the input after the closing quote.  The
fuel argument only serves structural recursion; every step consumes at
least one character, so initial fuel of length + 1 is always enough. -/
def parseStrBody : Nat → Str → Option (Str × Str)
  | 0, _ => none
  | _ + 1, [] => none
  | fuel + 1, c :: r =>
    if c = '"' then some ([], r)
    else if c = '\\' then
      match r with
      | [] => none
      | e :: r2 =>
        if e = '"' then (parseStrBody fuel r2).map (fun p => ('"' :: p.1, p.2))
        else if e = '\\' then (parseStrBody fuel r2).map (fun p => ('\\' :: p.1, p.2))
        else if e = '/' then (parseStrBody fuel r2).map (fun p => ('/' :: p.1, p.2))
        else if e = 'b' then (parseStrBody fuel r2).map (fun p => (Char.ofNat 8 :: p.1, p.2))
        else if e = 'f' then (parseStrBody fuel r2).map (fun p => (Char.ofNat 12 :: p.1, p.2))
        else if e = 'n' then (parseStrBody fuel r2).map (fun p => ('\n' :: p.1, p.2))
        else if e = 'r' then (parseStrBody fuel r2).map (fun p => ('\r' :: p.1, p.2))
        else if e = 't' then (parseStrBody fuel r2).map (fun p => ('\t' :: p.1, p.2))
        else if e = 'u' then
          match r2 with
          | h1 :: h2 :: h3 :: h4 :: r3 =>
            match hex4 h1 h2 h3 h4 with
            | none => none
            | some v =>
              if v < 0xD800 ∨ 0xDFFF < v then
                (parseStrBody fuel r3).map (fun p => (Char.ofNat v :: p.1, p.2))
              else if v ≤ 0xDBFF then
                match r3 with
                | e2 :: u2 :: g1 :: g2 :: g3 :: g4 :: r4 =>
                  if e2 = '\\' ∧ u2 = 'u' then
                    match hex4 g1 g2 g3 g4 with
                    | some w =>
                      if 0xDC00 ≤ w ∧ w ≤ 0xDFFF then
                        (parseStrBody fuel r4).map (fun p =>
                          (Char.ofNat (0x10000 + (v - 0xD800) * 0x400 + (w - 0xDC00)) :: p.1, p.2))
                      else
                        (parseStrBody fuel (e2 :: u2 :: g1 :: g2 :: g3 :: g4 :: r4)).map
                          (fun p => (Char.ofNat 0xFFFD :: p.1, p.2))
                    | none =>
                      (parseStrBody fuel (e2 :: u2 :: g1 :: g2 :: g3 :: g4 :: r4)).map
                        (fun p => (Char.ofNat 0xFFFD :: p.1, p.2))
                  else
                    (parseStrBody fuel (e2 :: u2 :: g1 :: g2 :: g3 :: g4 :: r4)).map
                      (fun p => (Char.ofNat 0xFFFD :: p.1, p.2))
                | r3sh => (parseStrBody fuel r3sh).map (fun p => (Char.ofNat 0xFFFD :: p.1, p.2))
              else
                (parseStrBody fuel r3).map (fun p => (Char.ofNat 0xFFFD :: p.1, p.2))
          | _ => none
        else none
    else if c.toNat < 32 then none
    else (parseStrBody fuel r).map (fun p => (c :: p.1, p.2))

/-- Optional fraction part of a number token. -/
def parseFrac (s : Str) : Option (Str × Str) :=
  match s with
  | '.' :: r =>
    let ds := r.takeWhile isDigitC
    if ds = [] then none else some ('.' :: ds, r.dropWhile isDigitC)
  | r => some ([], r)

/-- Optional exponent part of a number token. -/
def parseExp (s : Str) : Option (Str × Str) :=
  match s with
  | c :: r =>
    if c = 'e' ∨ c = 'E' then
      let (sgn, r1) :=
        match r with
        | '+' :: r2 => (['+'], r2)
        | '-' :: r2 => (['-'], r2)
        | r2 => (([] : Str), r2)
      let ds := r1.takeWhile isDigitC
      if ds = [] then none else some (c :: sgn ++ ds, r1.dropWhile isDigitC)
    else some ([], c :: r)
  | [] => some ([], [])

def parseFracExp (s : Str) : Option (Str × Str) := do
  let (f, s1) ← parseFrac s
  let (e, s2) ← parseExp s1
  pure (f ++ e, s2)

/-- A JSON number token: optional minus, then 0 or a nonzero-led digit
string, then optional fraction and exponent. -/
def parseNum (s : Str) : Option (Str × Str) :=
  let (minus, s1) :=
    match s with
    | '-' :: r => (['-'], r)
    | r => (([] : Str), r)
  match s1 with
  | [] => none
  | c :: r =>
    if c = '0' then (parseFracExp r).map (fun p => (minus ++ '0' :: p.1, p.2))
    else if isDigitC c then
      let ds := r.takeWhile isDigitC
      let r2 := r.dropWhile isDigitC
      (parseFracExp r2).map (fun p => (minus ++ c :: ds ++ p.1, p.2))
    else none

mutual
def parseVal : Nat → Str → Option (Jval × Str)
  | 0, _ => none
  | fuel + 1, s0 =>
    match skipWs s0 with
    | [] => none
    | c :: r =>
      if c = 'n' then
        match r with
        | 'u' :: 'l' :: 'l' :: r2 => some (.null, r2)
        | _ => none
      else if c = 't' then
        match r with
        | 'r' :: 'u' :: 'e' :: r2 => some (.bool true, r2)
        | _ => none
      else if c = 'f' then
        match r with
        | 'a' :: 'l' :: 's' :: 'e' :: r2 => some (.bool false, r2)
        | _ => none
      else if c = '"' then (parseStrBody (r.length + 1) r).map (fun p => (.str p.1, p.2))
      else if c = '[' then
        match skipWs r with
        | c2 :: r2 =>
          if c2 = ']' then some (.arr .nil, r2)
          else (parseArrItems fuel (c2 :: r2)).map (fun p => (.arr p.1, p.2))
        | [] => none
      else if c = lbraceC then
        match skipWs r with
        | c2 :: r2 =>
          if c2 = rbraceC then some (.obj .nil, r2)
          else (parseObjItems fuel (c2 :: r2)).map (fun p => (.obj p.1, p.2))
        | [] => none
      else (parseNum (c :: r)).map (fun p => (.num p.1, p.2))
def parseArrItems : Nat → Str → Option (Jarr × Str)
  | 0, _ => none
  | fuel + 1, s => do
    let (v, r1) ← parseVal fuel s
    match skipWs r1 with
    | c2 :: r2 =>
      if c2 = ',' then do
        let (vs, r3) ← parseArrItems fuel r2
        pure (.cons v vs, r3)
      else if c2 = ']' then pure (.cons v .nil, r2)
      else none
    | [] => none
def parseObjItems : Nat → Str → Option (Jobj × Str)
  | 0, _ => none
  | fuel + 1, s =>
    match skipWs s with
    | c :: r =>
      if c = '"' then do
        let (k, r1) ← parseStrBody (r.length + 1) r
        match skipWs r1 with
        | c1 :: r2 =>
          if c1 = ':' then do
            let (v, r3) ← parseVal fuel r2
            match skipWs r3 with
            | c2 :: r4 =>
              if c2 = ',' then do
                let (es, r5) ← parseObjItems fuel r4
                pure (.cons k v es, r5)
              else if c2 = rbraceC then pure (.cons k v .nil, r4)
              else none
            | [] => none
          else none
        | [] => none
      else none
    | [] => none
end

/-- json.Unmarshal of a complete value: leading and trailing whitespace is
allowed, anything else after the value is an error. -/
def parseJson (s : Str) : Option Jval :=
  match parseVal (s.length + 1) s with
  | none => none
  | some (v, r) => if skipWs r = [] then some v else none

/-! Decoding a JSON value into []Card, following encoding/json: unknown
object keys are ignored; a null leaves the target untouched; a type
mismatch records an error but decoding continues, leaving the mismatched
slot at its zero value. -/

def lowerC (c : Char) : Char :=
  if 65 ≤ c.toNat ∧ c.toNat ≤ 90 then Char.ofNat (c.toNat + 32) else c

/-- Struct-field resolution: exact tag match or case-folded match. -/
def keyMatches (k field : Str) : Bool :=
  decide (k = field) || decide (k.map lowerC = field.map lowerC)

def setCardField (c : Card) (err : Bool) (k : Str) (v : Jval) : Card × Bool :=
  if keyMatches k "name".data then
    match v with
    | .str s => ({ c with name := s }, err)
    | .null => (c, err)
    | _ => (c, true)
  else if keyMatches k "type".data then
    match v with
    | .str s => ({ c with type := s }, err)
    | .null => (c, err)
    | _ => (c, true)
  else (c, err)

def objToCardAux (acc : Card × Bool) : Jobj → Card × Bool
  | .nil => acc
  | .cons k v rest => objToCardAux (setCardField acc.1 acc.2 k v) rest

def objToCard (o : Jobj) : Card × Bool := objToCardAux (⟨[], []⟩, false) o

def elemToCard : Jval → Card × Bool
  | .obj o => objToCard o
  | .null => (⟨[], []⟩, false)
  | _ => (⟨[], []⟩, true)

def elemsToCards : Jarr → List Card × Bool
  | .nil => ([], false)
  | .cons v rest =>
    ((elemToCard v).1 :: (elemsToCards rest).1, (elemToCard v).2 || (elemsToCards rest).2)

def jarrLength : Jarr → Nat
  | .nil => 0
  | .cons _ rest => jarrLength rest + 1

/-- Unmarshal of a decoded value into []Card. -/
def jvalToCards : Jval → List Card × Bool
  | .null => ([], false)
  | .arr xs => elemsToCards xs
  | _ => ([], true)

/-- json.Unmarshal(data, &cards): a syntax error leaves the nil slice in
place and reports the error; otherwise the value is decoded element-wise. -/
def unmarshalCards (s : Str) : List Card × Bool :=
  match parseJson s with
  | none => ([], true)
  | some v => jvalToCards v

/-! The HTTP handlers of main.go and the cardgenerator package. -/

def fScore : Str := "score".data
def fGameCards : Str := "gameCards".data
def fHasDefuseCard : Str := "hasDefuseCard".data
def fActiveCard : Str := "activeCard".data
def fUserName : Str := "userName".data

/-- The read phase of the GET /game handler (main.go lines 179-184): Atoi
and ParseBool values are used with their errors discarded, gameCards is
json.Unmarshal-ed with its error discarded, and activeCard is reconstructed
as a name-only card when the stored value is a non-empty string. -/
def decodeGameData (m : List (Str × Str)) : GameData :=
  { score := (goAtoiE ((alookup m fScore).getD [])).1
    gameCards := (unmarshalCards ((alookup m fGameCards).getD [])).1
    hasDefuseCard := (goParseBoolE ((alookup m fHasDefuseCard).getD [])).1
    activeCard :=
      match alookup m fActiveCard with
      | some v => if v ≠ [] then some ⟨v, []⟩ else none
      | none => none }

/-- The fixed card catalog of the cardgenerator package, exact literals. -/
def characters : List Str :=
  ["Cat card 😼".data, "Defuse card 🙅‍♂️".data,
   "Shuffle card 🔀 ".data, "Exploding kitten card 💣".data]

/-- GenerateRandomCards, with the stream of r.Intn(4) draws passed in as a
function from the draw index to a value below 4. -/
def generateRandomCards (f : Nat → Fin 4) : List Str :=
  (List.range 5).map (fun i => characters.getD (f i).val [])

def strsToJarr : List Str → Jarr
  | [] => .nil
  | s :: r => .cons (.str s) (strsToJarr r)

/-- json.Marshal of a []string value. -/
def marshalStrings (xs : List Str) : Str := marshalJval (.arr (strsToJarr xs))

/-- The fields seeded for a new user (main.go lines 158-163); the Go map
literal fixes the values, and go-redis encodes 0 as "0", false as "0" and
nil as the empty string. -/
def initFields (deck : List Str) : List (Str × Str) :=
  [(fScore, "0".data), (fGameCards, marshalStrings deck),
   (fHasDefuseCard, encBool false), (fActiveCard, [])]

/-- The initialization branch of the GET /game handler (lines 151-169):
seed the hash and ZAdd the player at score 0 when the key does not exist
and the name is non-empty. -/
def ensureInit (deck : List Str) (userName : Str) (s : Store) : Store :=
  if existsKey s userName = false ∧ userName ≠ [] then
    zaddS (hmsetS s userName (initFields deck)) userName 0
  else s

structure GameResp where
  store : Store
  gameData : GameData
  leaderboard : List LeaderboardEntry
deriving DecidableEq

/-- The GET /game handler: ensure initialization, then read and decode the
player's hash and take a leaderboard snapshot. -/
def gameHandlerModel (deck : List Str) (userName : Str) (s : Store) : GameResp :=
  let s1 := ensureInit deck userName s
  ⟨s1, decodeGameData (hgetAll s1 userName), getLatestLeaderboard s1⟩

def jlookup : Jobj → Str → Option Jval
  | .nil, _ => none
  | .cons k v rest, key => if k = key then some v else jlookup rest key

/-- Comma-ok type assertion to string: failure yields the zero value. -/
def asStrD : Option Jval → Str
  | some (.str s) => s
  | _ => []

/-- Comma-ok type assertion to bool: failure yields the zero value. -/
def asBoolD : Option Jval → Bool
  | some (.bool b) => b
  | _ => false

/-- The PUT /game handler body (updateGameData, lines 207-239) after a
successful request-body decode.  The unchecked assertions
requestBody["score"].(string) and requestBody["gameCards"].([]interface)
panic when the key is missing or has another type; the model returns none
exactly on those panics.  On success the four fields are HMSet in the
source order and the leaderboard is ZAdd-ed with the Atoi-ed score. -/
def updateGameDataModel (body : Jobj) (s : Store) : Option Store :=
  let userName := asStrD (jlookup body fUserName)
  let hasDefuseCard := asBoolD (jlookup body fHasDefuseCard)
  let activeCard := asStrD (jlookup body fActiveCard)
  match jlookup body fScore with
  | some (.str scoreStr) =>
    let score := (goAtoiE scoreStr).1
    match jlookup body fGameCards with
    | some (.arr gameCards) =>
      let s1 := hmsetS s userName
        [(fGameCards, marshalJval (.arr gameCards)),
         (fHasDefuseCard, encBool hasDefuseCard),
         (fActiveCard, activeCard),
         (fScore, intRepr score)]
      some (zaddS s1 userName score)
    | _ => none
  | _ => none

/-- The DELETE /game handler (resetGame, lines 272-324) after a successful
request-body decode into a string map: an empty or missing userName is
rejected with a 400 and nothing is written (result flag false); otherwise
the four zero-value fields are written and the member is ZRem-ed. -/
def resetGameModel (body : List (Str × Str)) (s : Store) : Store × Bool :=
  let userName := (alookup body fUserName).getD []
  if userName = [] then (s, false)
  else
    (zremS (hmsetS s userName
        [(fGameCards, "[]".data), (fHasDefuseCard, "false".data),
         (fActiveCard, []), (fScore, "0".data)])
      userName, true)

/-! The per-connection WebSocket message loop (websocketHandler, lines
89-113, with emitLeaderboard lines 124-136).  Each loop iteration is driven
by an event carrying the outcome of conn.ReadMessage (none = read error),
of the leaderboard fetch, of json.Marshal and of conn.WriteMessage. -/

structure WsEvent where
  read : Option Str
  fetchOk : Bool
  marshalOk : Bool
  writeOk : Bool
deriving DecidableEq

/-- leaderboardMap[userName]++ under the mutex. -/
def bumpTally (t : List (Str × Nat)) (n : Str) : List (Str × Nat) :=
  match alookup t n with
  | some k => aset t n (k + 1)
  | none => aset t n 1

structure WsOutcome where
  tally : List (Str × Nat)
  processed : Nat
  written : Nat
deriving DecidableEq

/-- The message loop: a read error breaks the loop; a fetch error drops the
message and continues; a marshal error makes emitLeaderboard return early;
a write error is logged; in every non-read-error case the loop continues
with the next message. -/
def wsLoop : List WsEvent → List (Str × Nat) → WsOutcome
  | [], t => ⟨t, 0, 0⟩
  | e :: rest, t =>
    match e.read with
    | none => ⟨t, 0, 0⟩
    | some name =>
      let t1 := bumpTally t name
      if e.fetchOk = false then
        let o := wsLoop rest t1
        ⟨o.tally, o.processed + 1, o.written⟩
      else if e.marshalOk = false then
        let o := wsLoop rest t1
        ⟨o.tally, o.processed + 1, o.written⟩
      else if e.writeOk then
        let o := wsLoop rest t1
        ⟨o.tally, o.processed + 1, o.written + 1⟩
      else
        let o := wsLoop rest t1
        ⟨o.tally, o.processed + 1, o.written⟩

/-! Leaderboard operation sequences, for stating the ordering claim over
every set of upserts and removals. -/

inductive LbOp where
  | upsert (m : Str) (sc : Int)
  | remove (m : Str)

def applyLbOp (s : Store) : LbOp → Store
  | .upsert m sc => zaddS s m sc
  | .remove m => zremS s m

def applyLbOps (s : Store) : List LbOp → Store
  | [] => s
  | op :: rest => applyLbOps (applyLbOp s op) rest

/-- The request body used for the update-then-read round trip: a well-formed
PUT /game body with the given field values. -/
def cardToJobj (c : Card) : Jobj :=
  .cons "name".data (.str c.name) (.cons "type".data (.str c.type) .nil)

def cardsToJarr : List Card → Jarr
  | [] => .nil
  | c :: r => .cons (.obj (cardToJobj c)) (cardsToJarr r)

def updBody (name scoreStr activeC : Str) (b : Bool) (cards : List Card) : Jobj :=
  .cons fUserName (.str name)
    (.cons fScore (.str scoreStr)
      (.cons fGameCards (.arr (cardsToJarr cards))
        (.cons fHasDefuseCard (.bool b)
          (.cons fActiveCard (.str activeC) .nil))))

/-! Association-list and store lemmas. -/

theorem alookup_aset_self {α : Type} (l : List (Str × α)) (k : Str) (v : α) :
    alookup (aset l k v) k = some v := by
  induction l with
  | nil => simp [aset, alookup]
  | cons hd t ih =>
    obtain ⟨k2, v2⟩ := hd
    by_cases hk : k2 = k
    · simp [aset, hk, alookup]
    · simp [aset, hk, alookup, ih]

theorem alookup_aset_ne {α : Type} (l : List (Str × α)) (k k2 : Str) (v : α)
    (h : k2 ≠ k) : alookup (aset l k v) k2 = alookup l k2 := by
  induction l with
  | nil => simp [aset, alookup, Ne.symm h]
  | cons hd t ih =>
    obtain ⟨k3, v3⟩ := hd
    by_cases hk : k3 = k
    · subst hk; simp [aset, alookup, Ne.symm h]
    · by_cases hk2 : k3 = k2
      · subst hk2; simp [aset, alookup, h]
      · simp [aset, hk, alookup, hk2, ih]

theorem hgetAll_hmset_self (s : Store) (k : Str) (fs : List (Str × Str)) :
    hgetAll (hmsetS s k fs) k = setFields (hgetAll s k) fs := by
  simp [hgetAll, hmsetS, hlookup, alookup_aset_self]

theorem existsKey_hmset_self (s : Store) (k : Str) (fs : List (Str × Str)) :
    existsKey (hmsetS s k fs) k = true := by
  simp [existsKey, hmsetS, hlookup, alookup_aset_self]

theorem hgetAll_zadd (s : Store) (m : Str) (sc : Int) (k : Str) :
    hgetAll (zaddS s m sc) k = hgetAll s k := rfl

theorem existsKey_zadd (s : Store) (m : Str) (sc : Int) (k : Str) :
    existsKey (zaddS s m sc) k = existsKey s k := rfl

theorem hgetAll_zrem (s : Store) (m : Str) (k : Str) :
    hgetAll (zremS s m) k = hgetAll s k := rfl

theorem existsKey_zrem (s : Store) (m : Str) (k : Str) :
    existsKey (zremS s m) k = existsKey s k := rfl

theorem zset_hmset (s : Store) (k : Str) (fs : List (Str × Str)) :
    (hmsetS s k fs).zset = s.zset := rfl

/-! Decimal round-trip lemmas for the Atoi path. -/

theorem digitVal_digitChar (d : Nat) (h : d < 10) : digitVal (digitChar d) = d := by
  interval_cases d <;> decide

theorem isDigitC_digitChar (d : Nat) (h : d < 10) : isDigitC (digitChar d) = true := by
  interval_cases d <;> decide

theorem digitsVal_append_digit (xs : Str) (c : Char) :
    digitsVal (xs ++ [c]) = 10 * digitsVal xs + digitVal c := by
  simp [digitsVal, List.foldl_append]

theorem natReprAux_spec : ∀ fuel n, n < fuel →
    natReprAux fuel n ≠ [] ∧ (natReprAux fuel n).all isDigitC = true ∧
      digitsVal (natReprAux fuel n) = n := by
  intro fuel
  induction fuel with
  | zero => intro n h; omega
  | succ f ih =>
    intro n h
    by_cases h10 : n < 10
    · refine ⟨by simp [natReprAux, h10], ?_, ?_⟩
      · simp [natReprAux, h10, isDigitC_digitChar n h10]
      · simp [natReprAux, h10, digitsVal, digitVal_digitChar n h10]
    · have hlt : n / 10 < n := Nat.div_lt_self (by omega) (by omega)
      have hd : n / 10 < f := by omega
      obtain ⟨ne, hall, hval⟩ := ih (n / 10) hd
      have hm : n % 10 < 10 := Nat.mod_lt _ (by omega)
      refine ⟨by simp [natReprAux, h10], ?_, ?_⟩
      · simp [natReprAux, h10, List.all_append, hall, isDigitC_digitChar (n % 10) hm]
      · rw [natReprAux, if_neg h10, digitsVal_append_digit, hval,
          digitVal_digitChar (n % 10) hm]
        omega

theorem natRepr_spec (n : Nat) :
    natRepr n ≠ [] ∧ (natRepr n).all isDigitC = true ∧ digitsVal (natRepr n) = n :=
  natReprAux_spec (n + 1) n (by omega)

theorem signSplit_digits (s : Str) (hne : s ≠ []) (hall : s.all isDigitC = true) :
    signSplit s = (false, s) := by
  cases s with
  | nil => simp at hne
  | cons c r =>
    simp only [List.all_cons, Bool.and_eq_true] at hall
    have h1 : c ≠ '+' := by
      intro h; subst h; exact absurd hall.1 (by decide)
    have h2 : c ≠ '-' := by
      intro h; subst h; exact absurd hall.1 (by decide)
    simp [signSplit, h1, h2]

theorem goAtoiE_digits (ds : Str) (hne : ds ≠ []) (hall : ds.all isDigitC = true)
    (hle : (digitsVal ds : Int) ≤ 2 ^ 63 - 1) :
    goAtoiE ds = ((digitsVal ds : Int), false) := by
  unfold goAtoiE
  rw [signSplit_digits ds hne hall]
  simp [hne, hall, hle]
  omega

theorem goAtoiE_neg_digits (ds : Str) (hne : ds ≠ []) (hall : ds.all isDigitC = true)
    (hle : (digitsVal ds : Int) ≤ 2 ^ 63) :
    goAtoiE ('-' :: ds) = (-(digitsVal ds : Int), false) := by
  have hsplit : signSplit ('-' :: ds) = (true, ds) := by
    have hpm : ('-' : Char) ≠ '+' := by decide
    simp [signSplit, hpm]
  unfold goAtoiE
  rw [hsplit]
  simp [hne, hall, hle]
  omega

theorem goAtoiE_intRepr (k : Int) (h1 : -(2 ^ 63) ≤ k) (h2 : k ≤ 2 ^ 63 - 1) :
    goAtoiE (intRepr k) = (k, false) := by
  obtain ⟨ne, hall, hval⟩ := natRepr_spec k.natAbs
  by_cases hneg : k < 0
  · have hrep : intRepr k = '-' :: natRepr k.natAbs := by simp [intRepr, hneg]
    rw [hrep, goAtoiE_neg_digits _ ne hall (by rw [hval]; omega), hval]
    have habs : -((k.natAbs : Nat) : Int) = k := by omega
    rw [habs]
  · have hrep : intRepr k = natRepr k.natAbs := by simp [intRepr, hneg]
    rw [hrep, goAtoiE_digits _ ne hall (by rw [hval]; omega), hval]
    have habs : ((k.natAbs : Nat) : Int) = k := by omega
    rw [habs]

theorem goAtoiE_range (s : Str) :
    -(2 ^ 63) ≤ (goAtoiE s).1 ∧ (goAtoiE s).1 ≤ 2 ^ 63 - 1 := by
  have hnn : (0 : Int) ≤ ((digitsVal (signSplit s).2 : Nat) : Int) := Int.natCast_nonneg _
  have hp : ((2 : Int) ^ 63) = 9223372036854775808 := by norm_num
  unfold goAtoiE
  split_ifs <;> refine ⟨?_, ?_⟩ <;> simp_all <;> omega

theorem goParseBoolE_encBool (b : Bool) : goParseBoolE (encBool b) = (b, false) := by
  cases b <;> decide

theorem goParseBoolE_err_val (s : Str) (h : (goParseBoolE s).2 = true) :
    (goParseBoolE s).1 = false := by
  unfold goParseBoolE at h ⊢
  split_ifs at h ⊢ <;> simp_all

/-! Ordering lemmas for the leaderboard snapshot. -/

theorem strLeB_total : ∀ a b : Str, strLeB a b = true ∨ strLeB b a = true := by
  intro a
  induction a with
  | nil => intro b; left; rfl
  | cons c as ih =>
    intro b
    cases b with
    | nil => right; rfl
    | cons d bs =>
      by_cases h1 : c.toNat < d.toNat
      · left; simp [strLeB, h1]
      · by_cases h2 : d.toNat < c.toNat
        · right; simp [strLeB, h2]
        · rcases ih bs with h | h
          · left; simp [strLeB, h1, h2, h]
          · right; simp [strLeB, h1, h2, h]

theorem strLeB_trans : ∀ a b c : Str,
    strLeB a b = true → strLeB b c = true → strLeB a c = true := by
  intro a
  induction a with
  | nil => intro b c _ _; rfl
  | cons x as ih =>
    intro b c hab hbc
    cases b with
    | nil => simp [strLeB] at hab
    | cons y bs =>
      cases c with
      | nil => simp [strLeB] at hbc
      | cons z cs =>
        simp only [strLeB] at hab hbc ⊢
        by_cases h1 : x.toNat < y.toNat
        · by_cases h2 : y.toNat < z.toNat
          · simp [Nat.lt_trans h1 h2]
          · by_cases h3 : z.toNat < y.toNat
            · simp [h2, h3] at hbc
            · have hyz : y.toNat = z.toNat := by omega
              simp [hyz ▸ h1]
        · by_cases h4 : y.toNat < x.toNat
          · simp [h1, h4] at hab
          · have hxy : x.toNat = y.toNat := by omega
            by_cases h2 : y.toNat < z.toNat
            · simp [hxy ▸ h2]
            · by_cases h3 : z.toNat < y.toNat
              · simp [h2, h3] at hbc
              · have hyz : y.toNat = z.toNat := by omega
                simp [h1, h4] at hab
                simp [h2, h3] at hbc
                have hq1 : ¬ x.toNat < z.toNat := by omega
                have hq2 : ¬ z.toNat < x.toNat := by omega
                simp [hq1, hq2]
                exact ih bs cs hab hbc

instance : IsTotal (Str × Int) entryBefore := ⟨by
  intro a b
  rcases lt_trichotomy a.2 b.2 with h | h | h
  · right; exact Or.inl h
  · rcases strLeB_total b.1 a.1 with hs | hs
    · left; exact Or.inr ⟨h, hs⟩
    · right; exact Or.inr ⟨h.symm, hs⟩
  · left; exact Or.inl h⟩

instance : IsTrans (Str × Int) entryBefore := ⟨by
  intro a b c hab hbc
  rcases hab with h1 | ⟨h1e, h1s⟩
  · rcases hbc with h2 | ⟨h2e, h2s⟩
    · exact Or.inl (lt_trans h2 h1)
    · exact Or.inl (h2e ▸ h1)
  · rcases hbc with h2 | ⟨h2e, h2s⟩
    · exact Or.inl (h1e ▸ h2)
    · exact Or.inr ⟨h1e.trans h2e, strLeB_trans _ _ _ h2s h1s⟩⟩

def keysND {α : Type} (l : List (Str × α)) : Prop := (l.map Prod.fst).Nodup

theorem keysND_zadd (s : Store) (m : Str) (sc : Int) (h : keysND s.zset) :
    keysND (zaddS s m sc).zset := by
  simp only [keysND, zaddS, List.map_cons, List.nodup_cons]
  constructor
  · intro hm
    obtain ⟨p, hp, hpe⟩ := List.mem_map.mp hm
    have := (List.mem_filter.mp hp).2
    simp at this
    exact this hpe
  · exact h.sublist ((List.filter_sublist _).map Prod.fst)

theorem keysND_zrem (s : Store) (m : Str) (h : keysND s.zset) :
    keysND (zremS s m).zset :=
  h.sublist ((List.filter_sublist _).map Prod.fst)

theorem keysND_applyLbOps (ops : List LbOp) :
    ∀ s : Store, keysND s.zset → keysND (applyLbOps s ops).zset := by
  induction ops with
  | nil => intro s h; exact h
  | cons op rest ih =>
    intro s h
    cases op with
    | upsert m sc => exact ih _ (keysND_zadd s m sc h)
    | remove m => exact ih _ (keysND_zrem s m h)

theorem mem_of_alookup_some {α : Type} {l : List (Str × α)} {k : Str} {v : α}
    (h : alookup l k = some v) : (k, v) ∈ l := by
  induction l with
  | nil => simp [alookup] at h
  | cons hd t ih =>
    obtain ⟨k2, v2⟩ := hd
    by_cases hk : k2 = k
    · subst hk
      simp [alookup] at h
      simp [h]
    · simp [alookup, hk] at h
      simp [ih h]

theorem alookup_of_mem_keysND {α : Type} {l : List (Str × α)} {k : Str} {v : α}
    (hnd : keysND l) (h : (k, v) ∈ l) : alookup l k = some v := by
  induction l with
  | nil => simp at h
  | cons hd t ih =>
    obtain ⟨k2, v2⟩ := hd
    simp only [keysND, List.map_cons, List.nodup_cons] at hnd
    rcases List.mem_cons.mp h with he | ht
    · obtain ⟨hk, hv⟩ := Prod.mk.inj he
      subst hk
      subst hv
      simp [alookup]
    · by_cases hk : k2 = k
      · exfalso
        apply hnd.1
        subst hk
        exact List.mem_map.mpr ⟨(k2, v), ht, rfl⟩
      · simp only [alookup, if_neg hk]
        exact ih hnd.2 ht

theorem mem_zadd_iff (s : Store) (m : Str) (sc : Int) (p : Str × Int) :
    p ∈ (zaddS s m sc).zset ↔ p = (m, sc) ∨ (p.1 ≠ m ∧ p ∈ s.zset) := by
  simp [zaddS, List.mem_filter, and_comm]

theorem mem_zrem_iff (s : Store) (m : Str) (p : Str × Int) :
    p ∈ (zremS s m).zset ↔ p.1 ≠ m ∧ p ∈ s.zset := by
  simp [zremS, List.mem_filter, and_comm]

theorem mem_getLatest_iff (s : Store) (m : Str) (sc : Int) :
    (⟨m, sc⟩ : LeaderboardEntry) ∈ getLatestLeaderboard s ↔ (m, sc) ∈ s.zset := by
  unfold getLatestLeaderboard
  rw [List.mem_map]
  constructor
  · rintro ⟨p, hp, he⟩
    have hpe : p = (m, sc) := by
      obtain ⟨p1, p2⟩ := p
      simp [LeaderboardEntry.mk.injEq] at he
      simp [he]
    subst hpe
    exact (List.perm_insertionSort entryBefore s.zset).mem_iff.mp hp
  · intro h
    exact ⟨(m, sc), (List.perm_insertionSort entryBefore s.zset).mem_iff.mpr h, rfl⟩

theorem getLatest_sorted (s : Store) :
    List.Pairwise (fun a b : LeaderboardEntry => b.userScore ≤ a.userScore)
      (getLatestLeaderboard s) := by
  unfold getLatestLeaderboard
  have hs := List.sorted_insertionSort entryBefore s.zset
  refine List.Pairwise.map _ ?_ hs
  intro a b hab
  rcases hab with h | ⟨he, _⟩
  · exact le_of_lt h
  · exact le_of_eq he.symm

theorem getLatest_names_nodup (s : Store) (h : keysND s.zset) :
    ((getLatestLeaderboard s).map (fun e => e.userName)).Nodup := by
  unfold getLatestLeaderboard
  rw [List.map_map]
  have hco : ((fun e : LeaderboardEntry => e.userName) ∘
      (fun p : Str × Int => (⟨p.1, p.2⟩ : LeaderboardEntry))) = Prod.fst := rfl
  rw [hco]
  exact ((List.perm_insertionSort entryBefore s.zset).map Prod.fst).nodup_iff.mpr h

theorem alookup_filter_ne {α : Type} (l : List (Str × α)) (n m : Str) (h : m ≠ n) :
    alookup (l.filter (fun p => decide (p.1 ≠ n))) m = alookup l m := by
  induction l with
  | nil => rfl
  | cons hd t ih =>
    obtain ⟨k2, v2⟩ := hd
    rw [List.filter_cons]
    by_cases hk : k2 = n
    · rw [if_neg (by simp [hk])]
      rw [ih]
      have hkm : k2 ≠ m := by rw [hk]; exact Ne.symm h
      simp [alookup, hkm]
    · rw [if_pos (by simp [hk])]
      by_cases hk2 : k2 = m
      · simp [alookup, hk2]
      · simp only [alookup, if_neg hk2]
        exact ih

theorem alookup_filter_self {α : Type} (l : List (Str × α)) (n : Str) :
    alookup (l.filter (fun p => decide (p.1 ≠ n))) n = none := by
  induction l with
  | nil => rfl
  | cons hd t ih =>
    obtain ⟨k2, v2⟩ := hd
    rw [List.filter_cons]
    by_cases hk : k2 = n
    · rw [if_neg (by simp [hk])]; exact ih
    · rw [if_pos (by simp [hk])]
      simp only [alookup, if_neg hk]
      exact ih

theorem zlookup_zadd (s : Store) (n : Str) (sc : Int) (m : Str) :
    zlookup (zaddS s n sc) m = if n = m then some sc else zlookup s m := by
  by_cases h : n = m
  · subst h; simp [zlookup, zaddS, alookup]
  · rw [if_neg h]
    simp only [zlookup, zaddS, alookup, if_neg h]
    exact alookup_filter_ne s.zset n m (Ne.symm h)

theorem zlookup_zrem (s : Store) (n : Str) (m : Str) :
    zlookup (zremS s n) m = if n = m then none else zlookup s m := by
  by_cases h : n = m
  · subst h
    rw [if_pos rfl]
    simp only [zlookup, zremS]
    exact alookup_filter_self s.zset n
  · rw [if_neg h]
    simp only [zlookup, zremS]
    exact alookup_filter_ne s.zset n m (Ne.symm h)

/-- The specification-level view of a sequence of leaderboard operations:
the score of a member is determined by the last upsert or removal naming
it. -/
def lbFold (ops : List LbOp) (m : Str) : Option Int :=
  ops.foldl
    (fun acc op =>
      match op with
      | .upsert n sc => if n = m then some sc else acc
      | .remove n => if n = m then none else acc)
    none

theorem zlookup_applyLbOps (ops : List LbOp) :
    ∀ s : Store, ∀ m : Str,
      zlookup (applyLbOps s ops) m =
        ops.foldl
          (fun acc op =>
            match op with
            | .upsert n sc => if n = m then some sc else acc
            | .remove n => if n = m then none else acc)
          (zlookup s m) := by
  induction ops with
  | nil => intro s m; rfl
  | cons op rest ih =>
    intro s m
    cases op with
    | upsert n sc =>
      simp only [applyLbOps, applyLbOp, List.foldl_cons]
      rw [ih (zaddS s n sc) m, zlookup_zadd]
    | remove n =>
      simp only [applyLbOps, applyLbOp, List.foldl_cons]
      rw [ih (zremS s n) m, zlookup_zrem]

/-- C1 counterexample: upserting two members at the same score produces a
snapshot whose score sequence is [1, 1], which is not strictly descending,
so the claim as stated fails at this input. -/
theorem lb_snapshot_not_strictly_descending :
    ((getLatestLeaderboard (applyLbOps emptyStore
        [.upsert "a".data 1, .upsert "b".data 1])).map (fun e => e.userScore) = [1, 1]) ∧
    ¬ List.Pairwise (fun a b : LeaderboardEntry => b.userScore < a.userScore)
      (getLatestLeaderboard (applyLbOps emptyStore
        [.upsert "a".data 1, .upsert "b".data 1])) := by
  constructor
  · decide
  · intro h
    have : (getLatestLeaderboard (applyLbOps emptyStore
        [.upsert "a".data 1, .upsert "b".data 1])) =
        [⟨"b".data, 1⟩, ⟨"a".data, 1⟩] := by decide
    rw [this] at h
    have h2 := (List.pairwise_cons.mp h).1 ⟨"a".data, 1⟩ (by simp)
    exact absurd h2 (by decide)

/-- C1 (amended): for every sequence of upserts and removals applied to an
empty leaderboard, the snapshot is sorted in descending (non-strict) score
order, carries one entry per member, and contains exactly the members and
scores determined by the last committed operation per member; in
particular an entry never precedes a higher-scored entry. -/
theorem lb_snapshot_sorted_desc_amended (ops : List LbOp) :
    List.Pairwise (fun a b : LeaderboardEntry => b.userScore ≤ a.userScore)
      (getLatestLeaderboard (applyLbOps emptyStore ops)) ∧
    ((getLatestLeaderboard (applyLbOps emptyStore ops)).map
      (fun e => e.userName)).Nodup ∧
    (∀ m sc, (⟨m, sc⟩ : LeaderboardEntry) ∈ getLatestLeaderboard (applyLbOps emptyStore ops) ↔
      lbFold ops m = some sc) := by
  have hnd : keysND (applyLbOps emptyStore ops).zset :=
    keysND_applyLbOps ops emptyStore (by simp [keysND, emptyStore])
  refine ⟨getLatest_sorted _, getLatest_names_nodup _ hnd, ?_⟩
  intro m sc
  rw [mem_getLatest_iff]
  have hfold : zlookup (applyLbOps emptyStore ops) m = lbFold ops m := by
    rw [zlookup_applyLbOps ops emptyStore m]; rfl
  rw [← hfold]
  exact ⟨fun h => alookup_of_mem_keysND hnd h, fun h => mem_of_alookup_some h⟩

/-- C3 counterexample: with a write failure on the first message and a
successful second message, the loop processes both messages (the tally for
the second sender is bumped), so a serialize/write failure does not tear
the connection down as the claim states. -/
theorem ws_write_failure_not_teardown :
    (wsLoop [⟨some "a".data, true, true, false⟩, ⟨some "b".data, true, true, true⟩]
      []).processed = 2 ∧
    alookup (wsLoop [⟨some "a".data, true, true, false⟩,
      ⟨some "b".data, true, true, true⟩] []).tally "b".data = some 1 := by
  decide

/-- C3 (amended): when serializing or writing the snapshot fails, the error
is logged and only that emission is skipped; the connection stays up and the
loop continues, tearing down exactly at the first read error: the processed
count equals the number of successfully read messages regardless of fetch,
marshal or write failures, and only fully successful iterations write. -/
theorem ws_loop_continues_after_emit_failure (evts : List WsEvent) (t : List (Str × Nat)) :
    (wsLoop evts t).processed = (evts.takeWhile (fun e => e.read.isSome)).length ∧
    (wsLoop evts t).written = ((evts.takeWhile (fun e => e.read.isSome)).filter
      (fun e => e.fetchOk && e.marshalOk && e.writeOk)).length := by
  induction evts generalizing t with
  | nil => exact ⟨rfl, rfl⟩
  | cons e rest ih =>
    cases hr : e.read with
    | none => simp [wsLoop, hr]
    | some name =>
      obtain ⟨ihp, ihw⟩ := ih (bumpTally t name)
      cases hf : e.fetchOk <;> cases hm : e.marshalOk <;> cases hwr : e.writeOk <;>
        simp [wsLoop, hr, hf, hm, hwr, ihp, ihw]

/-- C3 amended witness at a concrete trace of four events. -/
theorem ws_loop_continues_after_emit_failure_witness :
    (wsLoop [⟨some "a".data, true, false, true⟩, ⟨some "a".data, true, true, true⟩,
      ⟨none, true, true, true⟩, ⟨some "c".data, true, true, true⟩] []).processed = 2 ∧
    (wsLoop [⟨some "a".data, true, false, true⟩, ⟨some "a".data, true, true, true⟩,
      ⟨none, true, true, true⟩, ⟨some "c".data, true, true, true⟩] []).written = 1 := by
  obtain ⟨h1, h2⟩ := ws_loop_continues_after_emit_failure
    [⟨some "a".data, true, false, true⟩, ⟨some "a".data, true, true, true⟩,
      ⟨none, true, true, true⟩, ⟨some "c".data, true, true, true⟩] []
  exact ⟨by rw [h1]; decide, by rw [h2]; decide⟩

/-- C4: the GET /game new-user branch is idempotent: a second call for the
same name leaves the stored state exactly as after the first call, no matter
what deck the generator would produce on either call. -/
theorem game_init_idempotent (s : Store) (deck1 deck2 : List Str) (name : Str) :
    (gameHandlerModel deck2 name (gameHandlerModel deck1 name s).store).store =
      (gameHandlerModel deck1 name s).store := by
  show ensureInit deck2 name (ensureInit deck1 name s) = ensureInit deck1 name s
  by_cases hc : existsKey s name = false ∧ name ≠ []
  · have h1 : ensureInit deck1 name s = zaddS (hmsetS s name (initFields deck1)) name 0 := by
      unfold ensureInit; rw [if_pos hc]
    have hx : ¬ (existsKey (zaddS (hmsetS s name (initFields deck1)) name 0) name = false ∧
        name ≠ []) := by
      rw [existsKey_zadd, existsKey_hmset_self]
      simp
    rw [h1]
    unfold ensureInit
    rw [if_neg hx]
  · have h1 : ensureInit deck1 name s = s := by unfold ensureInit; rw [if_neg hc]
    rw [h1]
    unfold ensureInit
    rw [if_neg hc]

/-- C7: DELETE /game with an empty or missing userName fails with the 400
branch and performs no store write and no leaderboard removal: the store
comes back unchanged. -/
theorem reset_empty_name_rejected (body : List (Str × Str)) (s : Store)
    (h : (alookup body fUserName).getD [] = []) :
    resetGameModel body s = (s, false) := by
  simp [resetGameModel, h]

/-- C7 witness: a body without a userName field against the empty store. -/
theorem reset_empty_name_rejected_witness :
    resetGameModel [] emptyStore = (emptyStore, false) :=
  reset_empty_name_rejected [] emptyStore (by decide)

/-- C9: for every sequence of random draws, GenerateRandomCards returns
exactly 5 entries, all drawn from the fixed 4-entry catalog, whose exact
string literals are pinned here. -/
theorem generate_random_cards_spec (f : Nat → Fin 4) :
    (generateRandomCards f).length = 5 ∧
    (∀ c ∈ generateRandomCards f, c ∈ characters) ∧
    characters = ["Cat card 😼".data, "Defuse card 🙅‍♂️".data,
      "Shuffle card 🔀 ".data, "Exploding kitten card 💣".data] := by
  refine ⟨by simp [generateRandomCards], ?_, rfl⟩
  intro c hc
  simp only [generateRandomCards, List.mem_map] at hc
  obtain ⟨i, _, rfl⟩ := hc
  have hlt := (f i).isLt
  have h4 : (f i).val = 0 ∨ (f i).val = 1 ∨ (f i).val = 2 ∨ (f i).val = 3 := by omega
  rcases h4 with h | h | h | h <;> rw [h] <;> simp [characters]

/-- C9 witness at a constant draw function. -/
theorem generate_random_cards_spec_witness :
    (generateRandomCards (fun _ => 0)).length = 5 ∧ "Cat card 😼".data ∈ characters :=
  ⟨(generate_random_cards_spec (fun _ => 0)).1,
   (generate_random_cards_spec (fun _ => 0)).2.1 "Cat card 😼".data (by decide)⟩

def scoreFieldOk (body : Jobj) : Bool :=
  match jlookup body fScore with
  | some (.str _) => true
  | _ => false

def gameCardsFieldOk (body : Jobj) : Bool :=
  match jlookup body fGameCards with
  | some (.arr _) => true
  | _ => false

/-- C10: for every decoded PUT /game body whose score key is missing or not
a string, or whose gameCards key is missing or not an array, the handler's
unchecked type assertions fail at runtime (modelled by the none result), so
the panic branch is reachable after a successful body decode. -/
theorem update_type_assertion_crashes (body : Jobj) (s : Store)
    (h : scoreFieldOk body = false ∨ gameCardsFieldOk body = false) :
    updateGameDataModel body s = none := by
  rcases h with h | h
  · unfold scoreFieldOk at h
    unfold updateGameDataModel
    cases hj : jlookup body fScore with
    | none => simp
    | some v => cases v <;> simp_all
  · unfold gameCardsFieldOk at h
    unfold updateGameDataModel
    cases hj : jlookup body fScore with
    | none => simp
    | some v =>
      cases v <;> try simp
      case str =>
        cases hg : jlookup body fGameCards with
        | none => simp
        | some w => cases w <;> simp_all

/-- C10 witness: a syntactically valid JSON object body missing both score
and gameCards decodes successfully and makes the handler panic. -/
theorem update_type_assertion_crashes_witness :
    parseJson "\x7b\"userName\":\"a\"\x7d".data =
      some (.obj (.cons "userName".data (.str "a".data) .nil)) ∧
    updateGameDataModel (.cons "userName".data (.str "a".data) .nil) emptyStore = none :=
  ⟨by rfl, update_type_assertion_crashes _ emptyStore (by decide)⟩

theorem decodeGameData_eq (m : List (Str × Str)) :
    decodeGameData m = ⟨(goAtoiE ((alookup m fScore).getD [])).1,
      (unmarshalCards ((alookup m fGameCards).getD [])).1,
      (goParseBoolE ((alookup m fHasDefuseCard).getD [])).1,
      match alookup m fActiveCard with
      | some v => if v ≠ [] then some ⟨v, []⟩ else none
      | none => none⟩ := rfl

theorem init_lookups (m : List (Str × Str)) (deck : List Str) :
    alookup (setFields m (initFields deck)) fScore = some "0".data ∧
    alookup (setFields m (initFields deck)) fGameCards = some (marshalStrings deck) ∧
    alookup (setFields m (initFields deck)) fHasDefuseCard = some "0".data ∧
    alookup (setFields m (initFields deck)) fActiveCard = some [] := by
  have hsf : setFields m (initFields deck) =
      aset (aset (aset (aset m fScore "0".data) fGameCards (marshalStrings deck))
        fHasDefuseCard (encBool false)) fActiveCard [] := by
    simp [initFields, setFields]
  rw [hsf]
  refine ⟨?_, ?_, ?_, ?_⟩
  · rw [alookup_aset_ne _ _ _ _ (by decide), alookup_aset_ne _ _ _ _ (by decide),
      alookup_aset_ne _ _ _ _ (by decide), alookup_aset_self]
  · rw [alookup_aset_ne _ _ _ _ (by decide), alookup_aset_ne _ _ _ _ (by decide),
      alookup_aset_self]
  · rw [alookup_aset_ne _ _ _ _ (by decide), alookup_aset_self]; rfl
  · rw [alookup_aset_self]

theorem reset_lookups (m : List (Str × Str)) :
    alookup (setFields m [(fGameCards, "[]".data), (fHasDefuseCard, "false".data),
        (fActiveCard, []), (fScore, "0".data)]) fScore = some "0".data ∧
    alookup (setFields m [(fGameCards, "[]".data), (fHasDefuseCard, "false".data),
        (fActiveCard, []), (fScore, "0".data)]) fGameCards = some "[]".data ∧
    alookup (setFields m [(fGameCards, "[]".data), (fHasDefuseCard, "false".data),
        (fActiveCard, []), (fScore, "0".data)]) fHasDefuseCard = some "false".data ∧
    alookup (setFields m [(fGameCards, "[]".data), (fHasDefuseCard, "false".data),
        (fActiveCard, []), (fScore, "0".data)]) fActiveCard = some [] := by
  have hsf : setFields m [(fGameCards, "[]".data), (fHasDefuseCard, "false".data),
      (fActiveCard, []), (fScore, "0".data)] =
      aset (aset (aset (aset m fGameCards "[]".data) fHasDefuseCard "false".data)
        fActiveCard []) fScore "0".data := by
    simp [setFields]
  rw [hsf]
  refine ⟨?_, ?_, ?_, ?_⟩
  · rw [alookup_aset_self]
  · rw [alookup_aset_ne _ _ _ _ (by decide), alookup_aset_ne _ _ _ _ (by decide),
      alookup_aset_ne _ _ _ _ (by decide), alookup_aset_self]
  · rw [alookup_aset_ne _ _ _ _ (by decide), alookup_aset_ne _ _ _ _ (by decide),
      alookup_aset_self]
  · rw [alookup_aset_ne _ _ _ _ (by decide), alookup_aset_self]

/-- C5: initializing a previously-unseen, non-empty playerName seeds the
stored hash with score "0", the JSON serialization of the freshly generated
5-card deck, hasDefuseCard false ("0" on the wire) and an empty activeCard
(decoded back as an absent card), and upserts the player into the
leaderboard at score 0; with an empty playerName the handler leaves the
store untouched. -/
theorem game_init_seeds_new_player (s : Store) (f : Nat → Fin 4) (name : Str) :
    (existsKey s name = false → name ≠ [] →
      (alookup (hgetAll (gameHandlerModel (generateRandomCards f) name s).store name)
          fScore = some "0".data ∧
        alookup (hgetAll (gameHandlerModel (generateRandomCards f) name s).store name)
          fGameCards = some (marshalStrings (generateRandomCards f)) ∧
        alookup (hgetAll (gameHandlerModel (generateRandomCards f) name s).store name)
          fHasDefuseCard = some "0".data ∧
        alookup (hgetAll (gameHandlerModel (generateRandomCards f) name s).store name)
          fActiveCard = some [] ∧
        (gameHandlerModel (generateRandomCards f) name s).gameData.activeCard = none ∧
        (generateRandomCards f).length = 5 ∧
        zlookup (gameHandlerModel (generateRandomCards f) name s).store name = some 0)) ∧
    (name = [] → (gameHandlerModel (generateRandomCards f) name s).store = s) := by
  constructor
  · intro hex hne
    have hinit : (gameHandlerModel (generateRandomCards f) name s).store =
        zaddS (hmsetS s name (initFields (generateRandomCards f))) name 0 := by
      show ensureInit (generateRandomCards f) name s = _
      unfold ensureInit
      rw [if_pos ⟨hex, hne⟩]
    have hget : hgetAll (gameHandlerModel (generateRandomCards f) name s).store name =
        setFields (hgetAll s name) (initFields (generateRandomCards f)) := by
      rw [hinit, hgetAll_zadd, hgetAll_hmset_self]
    obtain ⟨l1, l2, l3, l4⟩ := init_lookups (hgetAll s name) (generateRandomCards f)
    refine ⟨?_, ?_, ?_, ?_, ?_, by simp [generateRandomCards], ?_⟩
    · rw [hget]; exact l1
    · rw [hget]; exact l2
    · rw [hget]; exact l3
    · rw [hget]; exact l4
    · show (decodeGameData (hgetAll (gameHandlerModel (generateRandomCards f) name s).store
        name)).activeCard = none
      rw [hget, decodeGameData_eq]
      simp [l4]
    · rw [hinit, zlookup_zadd, if_pos rfl]
  · intro hname
    show ensureInit (generateRandomCards f) name s = s
    unfold ensureInit
    rw [if_neg (by simp [hname])]

/-- C5 witness: a fresh name against the empty store with a constant draw. -/
theorem game_init_seeds_new_player_witness :
    alookup (hgetAll (gameHandlerModel (generateRandomCards (fun _ => 2)) "bob".data
        emptyStore).store "bob".data) fScore = some "0".data ∧
    zlookup (gameHandlerModel (generateRandomCards (fun _ => 2)) "bob".data
        emptyStore).store "bob".data = some 0 ∧
    (gameHandlerModel (generateRandomCards (fun _ => 2)) [] emptyStore).store =
      emptyStore := by
  obtain ⟨h1, h2⟩ := game_init_seeds_new_player emptyStore (fun _ => 2) "bob".data
  obtain ⟨a1, _, _, _, _, _, a7⟩ := h1 (by decide) (by decide)
  exact ⟨a1, a7, (game_init_seeds_new_player emptyStore (fun _ => 2) []).2 rfl⟩

/-- C6: after a successful reset of a non-empty playerName, reading the
player back through the GET handler yields score 0, an empty card sequence,
hasDefuseCard false and an absent activeCard, and the leaderboard snapshot
no longer contains that player. -/
theorem reset_then_read_zero_state (s : Store) (deck : List Str) (name : Str)
    (h : name ≠ []) :
    (resetGameModel [(fUserName, name)] s).2 = true ∧
    (gameHandlerModel deck name (resetGameModel [(fUserName, name)] s).1).gameData =
      ⟨0, [], false, none⟩ ∧
    (∀ sc, (⟨name, sc⟩ : LeaderboardEntry) ∉
      (gameHandlerModel deck name (resetGameModel [(fUserName, name)] s).1).leaderboard) := by
  have hbody : (alookup [(fUserName, name)] fUserName).getD [] = name := by
    simp [alookup]
  have hreset : resetGameModel [(fUserName, name)] s =
      (zremS (hmsetS s name [(fGameCards, "[]".data), (fHasDefuseCard, "false".data),
        (fActiveCard, []), (fScore, "0".data)]) name, true) := by
    unfold resetGameModel
    rw [hbody, if_neg h]
  rw [hreset]
  have hex : existsKey (zremS (hmsetS s name [(fGameCards, "[]".data),
      (fHasDefuseCard, "false".data), (fActiveCard, []), (fScore, "0".data)]) name)
      name = true := by
    rw [existsKey_zrem, existsKey_hmset_self]
  have hstay : (gameHandlerModel deck name (zremS (hmsetS s name [(fGameCards, "[]".data),
      (fHasDefuseCard, "false".data), (fActiveCard, []), (fScore, "0".data)]) name)).store =
      zremS (hmsetS s name [(fGameCards, "[]".data), (fHasDefuseCard, "false".data),
        (fActiveCard, []), (fScore, "0".data)]) name := by
    show ensureInit _ _ _ = _
    unfold ensureInit
    rw [if_neg (by rw [hex]; simp)]
  refine ⟨rfl, ?_, ?_⟩
  · show decodeGameData (hgetAll (ensureInit deck name _) name) = _
    have : (gameHandlerModel deck name (zremS (hmsetS s name [(fGameCards, "[]".data),
        (fHasDefuseCard, "false".data), (fActiveCard, []), (fScore, "0".data)]) name)).store =
        ensureInit deck name _ := rfl
    rw [show hgetAll (ensureInit deck name (zremS (hmsetS s name [(fGameCards, "[]".data),
        (fHasDefuseCard, "false".data), (fActiveCard, []), (fScore, "0".data)]) name)) name =
        setFields (hgetAll s name) [(fGameCards, "[]".data), (fHasDefuseCard, "false".data),
        (fActiveCard, []), (fScore, "0".data)] from by
      rw [show ensureInit deck name (zremS (hmsetS s name [(fGameCards, "[]".data),
          (fHasDefuseCard, "false".data), (fActiveCard, []), (fScore, "0".data)]) name) =
          zremS (hmsetS s name [(fGameCards, "[]".data), (fHasDefuseCard, "false".data),
          (fActiveCard, []), (fScore, "0".data)]) name from hstay]
      rw [hgetAll_zrem, hgetAll_hmset_self]]
    obtain ⟨l1, l2, l3, l4⟩ := reset_lookups (hgetAll s name)
    rw [decodeGameData_eq, l1, l2, l3, l4]
    decide
  · intro sc hmem
    have hmem2 : (⟨name, sc⟩ : LeaderboardEntry) ∈ getLatestLeaderboard
        (zremS (hmsetS s name [(fGameCards, "[]".data), (fHasDefuseCard, "false".data),
          (fActiveCard, []), (fScore, "0".data)]) name) := by
      have : (gameHandlerModel deck name (zremS (hmsetS s name [(fGameCards, "[]".data),
          (fHasDefuseCard, "false".data), (fActiveCard, []), (fScore, "0".data)]) name)).leaderboard =
          getLatestLeaderboard (zremS (hmsetS s name [(fGameCards, "[]".data),
          (fHasDefuseCard, "false".data), (fActiveCard, []), (fScore, "0".data)]) name) := by
        show getLatestLeaderboard (ensureInit deck name _) = _
        rw [show ensureInit deck name (zremS (hmsetS s name [(fGameCards, "[]".data),
          (fHasDefuseCard, "false".data), (fActiveCard, []), (fScore, "0".data)]) name) =
          zremS (hmsetS s name [(fGameCards, "[]".data), (fHasDefuseCard, "false".data),
          (fActiveCard, []), (fScore, "0".data)]) name from hstay]
      rw [this] at hmem
      exact hmem
    rw [mem_getLatest_iff] at hmem2
    have := (mem_zrem_iff _ _ _).mp hmem2
    exact this.1 rfl

/-- C6 witness at a concrete store and name. -/
theorem reset_then_read_zero_state_witness :
    (resetGameModel [(fUserName, "alice".data)] emptyStore).2 = true ∧
    (gameHandlerModel [] "alice".data
      (resetGameModel [(fUserName, "alice".data)] emptyStore).1).gameData =
      ⟨0, [], false, none⟩ ∧
    (⟨"alice".data, 3⟩ : LeaderboardEntry) ∉ (gameHandlerModel [] "alice".data
      (resetGameModel [(fUserName, "alice".data)] emptyStore).1).leaderboard := by
  obtain ⟨h1, h2, h3⟩ := reset_then_read_zero_state emptyStore [] "alice".data (by decide)
  exact ⟨h1, h2, h3 3⟩

/-- Whether a string passes the Atoi syntax (an optional sign followed by a
non-empty digit string); being in range is not part of the shape. -/
def intShapeOk (s : Str) : Bool :=
  !(decide ((signSplit s).2 = [])) && (signSplit s).2.all isDigitC

theorem goAtoiE_shape_bad (s : Str) (h : intShapeOk s = false) : goAtoiE s = (0, true) := by
  unfold intShapeOk at h
  unfold goAtoiE
  by_cases h1 : (signSplit s).2 = []
  · rw [if_pos h1]
  · rw [if_neg h1]
    have h2 : (signSplit s).2.all isDigitC = false := by
      cases hall : (signSplit s).2.all isDigitC
      · rfl
      · rw [hall, Bool.and_true] at h
        simp at h
        exact absurd h h1
    rw [if_neg (by simp [h2])]

theorem goAtoiE_err_shape_ok_clamped (s : Str) (herr : (goAtoiE s).2 = true)
    (hsh : intShapeOk s = true) :
    (goAtoiE s).1 = 2 ^ 63 - 1 ∨ (goAtoiE s).1 = -(2 ^ 63) := by
  unfold intShapeOk at hsh
  simp only [Bool.and_eq_true, Bool.not_eq_true', decide_eq_false_iff_not] at hsh
  obtain ⟨h1, h2⟩ := hsh
  unfold goAtoiE at herr ⊢
  rw [if_neg h1, if_pos h2] at herr ⊢
  by_cases hn : (signSplit s).1 = true
  · rw [if_pos hn] at herr ⊢
    by_cases hle : (digitsVal (signSplit s).2 : Int) ≤ 2 ^ 63
    · rw [if_pos hle] at herr
      exact absurd herr (by simp)
    · rw [if_neg hle] at herr ⊢
      exact Or.inr rfl
  · rw [if_neg hn] at herr ⊢
    by_cases hle : (digitsVal (signSplit s).2 : Int) ≤ 2 ^ 63 - 1
    · rw [if_pos hle] at herr
      exact absurd herr (by simp)
    · rw [if_neg hle] at herr ⊢
      exact Or.inl rfl

theorem elemsToCards_length : ∀ xs : Jarr, (elemsToCards xs).1.length = jarrLength xs
  | .nil => rfl
  | .cons v rest => by simp [elemsToCards, jarrLength, elemsToCards_length rest]

/-- C8 counterexample: the silent-default policy does not hold as stated.
With stored gameCards "[1]" the decode fails (error is non-nil) yet the
result is a one-element sequence holding a zero-valued card, not an empty
sequence; and with a stored score one above the int64 maximum, Atoi fails
with a range error yet the read decodes to the clamped maximum, not 0. -/
theorem read_decode_counterexample :
    ((unmarshalCards "[1]".data).2 = true ∧
      (decodeGameData [(fGameCards, "[1]".data)]).gameCards = [⟨[], []⟩] ∧
      (decodeGameData [(fGameCards, "[1]".data)]).gameCards ≠ ([] : List Card)) ∧
    ((goAtoiE "9223372036854775808".data).2 = true ∧
      (decodeGameData [(fScore, "9223372036854775808".data)]).score = 9223372036854775807 ∧
      (decodeGameData [(fScore, "9223372036854775808".data)]).score ≠ 0) := by
  decide

/-- C8 (amended): the read path is total and never surfaces an error, with
these defaults: a score failing Atoi for syntactic reasons decodes to 0,
while a syntactically valid but out-of-range score decodes to a clamped
int64 bound; a hasDefuseCard failing ParseBool decodes to false; a cards
field that does not parse as JSON yields an empty sequence, while a parsed
JSON array yields exactly one card slot per element (zero-valued
placeholders for malformed elements) alongside the suppressed error; and
activeCard is present exactly when the stored value is non-empty, then
carrying only a name with an empty type. -/
theorem read_decode_silent_default_amended (m : List (Str × Str)) :
    (intShapeOk ((alookup m fScore).getD []) = false → (decodeGameData m).score = 0) ∧
    ((goAtoiE ((alookup m fScore).getD [])).2 = true →
      intShapeOk ((alookup m fScore).getD []) = true →
      (decodeGameData m).score = 2 ^ 63 - 1 ∨ (decodeGameData m).score = -(2 ^ 63)) ∧
    ((goParseBoolE ((alookup m fHasDefuseCard).getD [])).2 = true →
      (decodeGameData m).hasDefuseCard = false) ∧
    (parseJson ((alookup m fGameCards).getD []) = none →
      (decodeGameData m).gameCards = []) ∧
    (∀ xs, parseJson ((alookup m fGameCards).getD []) = some (.arr xs) →
      (decodeGameData m).gameCards.length = jarrLength xs) ∧
    (∀ c, (decodeGameData m).activeCard = some c ↔
      ∃ v, alookup m fActiveCard = some v ∧ v ≠ [] ∧ c = ⟨v, []⟩) := by
  refine ⟨?_, ?_, ?_, ?_, ?_, ?_⟩
  · intro h
    show (goAtoiE ((alookup m fScore).getD [])).1 = 0
    rw [goAtoiE_shape_bad _ h]
  · intro herr hsh
    exact goAtoiE_err_shape_ok_clamped _ herr hsh
  · intro h
    exact goParseBoolE_err_val _ h
  · intro h
    show (unmarshalCards ((alookup m fGameCards).getD [])).1 = []
    unfold unmarshalCards
    rw [h]
  · intro xs h
    show (unmarshalCards ((alookup m fGameCards).getD [])).1.length = jarrLength xs
    unfold unmarshalCards
    rw [h]
    exact elemsToCards_length xs
  · intro c
    show (match alookup m fActiveCard with
      | some v => if v ≠ [] then some (⟨v, []⟩ : Card) else none
      | none => none) = some c ↔ _
    cases ha : alookup m fActiveCard with
    | none => simp
    | some v =>
      by_cases hv : v = []
      · subst hv
        simp
      · simp only [if_pos hv, Option.some.injEq]
        constructor
        · intro he
          exact ⟨v, rfl, hv, he.symm⟩
        · rintro ⟨v2, hv2, -, hc⟩
          obtain rfl : v2 = v := hv2.symm
          rw [hc]

/-- C8 amended witness: a stored map whose score, boolean and cards fields
are all malformed and whose activeCard is the non-empty string "Q", plus
the out-of-range score and partially-decoded cards inputs. -/
theorem read_decode_silent_default_amended_witness :
    (decodeGameData [(fScore, "abc".data), (fHasDefuseCard, "zz".data),
      (fGameCards, "nope".data), (fActiveCard, "Q".data)]).score = 0 ∧
    (decodeGameData [(fScore, "abc".data), (fHasDefuseCard, "zz".data),
      (fGameCards, "nope".data), (fActiveCard, "Q".data)]).hasDefuseCard = false ∧
    (decodeGameData [(fScore, "abc".data), (fHasDefuseCard, "zz".data),
      (fGameCards, "nope".data), (fActiveCard, "Q".data)]).gameCards = [] ∧
    (decodeGameData [(fScore, "abc".data), (fHasDefuseCard, "zz".data),
      (fGameCards, "nope".data), (fActiveCard, "Q".data)]).activeCard =
      some ⟨"Q".data, []⟩ ∧
    ((decodeGameData [(fScore, "9223372036854775808".data)]).score = 2 ^ 63 - 1 ∨
      (decodeGameData [(fScore, "9223372036854775808".data)]).score = -(2 ^ 63)) ∧
    (decodeGameData [(fGameCards, "[1]".data)]).gameCards.length = 1 := by
  refine ⟨?_, ?_, ?_, ?_, ?_, ?_⟩
  · exact (read_decode_silent_default_amended _).1 (by decide)
  · exact (read_decode_silent_default_amended _).2.2.1 (by decide)
  · exact (read_decode_silent_default_amended _).2.2.2.1 (by rfl)
  · exact ((read_decode_silent_default_amended _).2.2.2.2.2 ⟨"Q".data, []⟩).mpr
      ⟨"Q".data, by decide, by decide, rfl⟩
  · exact (read_decode_silent_default_amended _).2.1 (by decide) (by decide)
  · exact ((read_decode_silent_default_amended _).2.2.2.2.1
      (.cons (.num "1".data) .nil) (by rfl)).trans rfl

/-! Round-trip of the cards through json.Marshal and json.Unmarshal. -/

def safeCharP (c : Char) : Prop :=
  c ≠ '"' ∧ c ≠ '\\' ∧ 32 ≤ c.toNat ∧ c ≠ '<' ∧ c ≠ '>' ∧ c ≠ '&' ∧
  c.toNat ≠ 0x2028 ∧ c.toNat ≠ 0x2029

instance : DecidablePred safeCharP := fun c => by unfold safeCharP; infer_instance

/-- Characters that json.Marshal emits verbatim inside a string literal. -/
def safeChar (c : Char) : Bool := decide (safeCharP c)

def cardsSafe (cards : List Card) : Bool :=
  cards.all (fun c => c.name.all safeChar && c.type.all safeChar)

theorem escChar_safe (c : Char) (h : safeChar c = true) : escChar c = [c] := by
  obtain ⟨h1, h2, h3, h4, h5, h6, h7, h8⟩ := of_decide_eq_true h
  have hn : c ≠ '\n' := by intro he; subst he; exact absurd h3 (by decide)
  have hr : c ≠ '\r' := by intro he; subst he; exact absurd h3 (by decide)
  have ht : c ≠ '\t' := by intro he; subst he; exact absurd h3 (by decide)
  unfold escChar
  rw [if_neg h1, if_neg h2, if_neg hn, if_neg hr, if_neg ht,
    if_neg (by push_neg; exact ⟨by omega, h4, h5, h6⟩), if_neg h7, if_neg h8]

theorem escStr_safe (s : Str) (h : s.all safeChar = true) : escStr s = s := by
  induction s with
  | nil => rfl
  | cons c cs ih =>
    simp only [List.all_cons, Bool.and_eq_true] at h
    show escChar c ++ escStr cs = c :: cs
    rw [escChar_safe c h.1, ih h.2]
    rfl

theorem parseStrBody_safe : ∀ (s : Str) (fuel : Nat) (r : Str),
    s.all safeChar = true → s.length < fuel →
    parseStrBody fuel (s ++ '"' :: r) = some (s, r) := by
  intro s
  induction s with
  | nil =>
    intro fuel r _ hf
    cases fuel with
    | zero => omega
    | succ f => simp [parseStrBody]
  | cons c cs ih =>
    intro fuel r hall hf
    cases fuel with
    | zero => omega
    | succ f =>
      simp only [List.all_cons, Bool.and_eq_true] at hall
      obtain ⟨h1, h2, h3, _⟩ := of_decide_eq_true hall.1
      show parseStrBody (f + 1) (c :: (cs ++ '"' :: r)) = some (c :: cs, r)
      simp only [parseStrBody]
      rw [if_neg h1, if_neg h2, if_neg (by omega)]
      rw [ih f r hall.2 (by simp at hf; omega)]
      rfl

theorem skipWs_cons (c : Char) (r : Str) (h : isWsC c = false) : skipWs (c :: r) = c :: r := by
  simp [skipWs, h]

theorem parseVal_succ_quote (fuel : Nat) (r : Str) :
    parseVal (fuel + 1) ('"' :: r) =
      (parseStrBody (r.length + 1) r).map (fun p => (.str p.1, p.2)) := rfl

theorem parseVal_str (fuel : Nat) (s r : Str) (hall : s.all safeChar = true) :
    parseVal (fuel + 1) (printStr s ++ r) = some (.str s, r) := by
  have hps : printStr s ++ r = '"' :: (s ++ '"' :: r) := by
    unfold printStr
    rw [escStr_safe s hall]
    simp
  rw [hps, parseVal_succ_quote]
  rw [parseStrBody_safe s ((s ++ '"' :: r).length + 1) r hall (by simp; omega)]
  rfl

theorem parseObjItems_succ_quote (fuel : Nat) (r : Str) :
    parseObjItems (fuel + 1) ('"' :: r) =
      (parseStrBody (r.length + 1) r).bind (fun p =>
        match skipWs p.2 with
        | c1 :: r2 =>
          if c1 = ':' then
            (parseVal fuel r2).bind (fun q =>
              match skipWs q.2 with
              | c2 :: r4 =>
                if c2 = ',' then
                  (parseObjItems fuel r4).bind (fun w => some (.cons p.1 q.1 w.1, w.2))
                else if c2 = rbraceC then some (.cons p.1 q.1 .nil, r4)
                else none
              | [] => none)
          else none
        | [] => none) := rfl

theorem parseObjItems_single (g : Nat) (k v : Str) (r : Str)
    (hk : k.all safeChar = true) (hv : v.all safeChar = true) :
    parseObjItems (g + 2) (printStr k ++ ':' :: printStr v ++ rbraceC :: r) =
      some (.cons k (.str v) .nil, r) := by
  have hshape : printStr k ++ ':' :: printStr v ++ rbraceC :: r =
      '"' :: (k ++ '"' :: (':' :: (printStr v ++ rbraceC :: r))) := by
    unfold printStr
    rw [escStr_safe k hk]
    simp
  have hlen : k.length < (k ++ '"' :: (':' :: (printStr v ++ rbraceC :: r))).length + 1 := by
    simp
    omega
  rw [show g + 2 = (g + 1) + 1 from rfl, hshape, parseObjItems_succ_quote]
  rw [parseStrBody_safe k _ _ hk hlen]
  simp only [Option.some_bind]
  simp only [show skipWs (':' :: (printStr v ++ rbraceC :: r)) = ':' :: (printStr v ++ rbraceC :: r) from skipWs_cons _ _ (by decide)]
  rw [parseVal_str g v (rbraceC :: r) hv]
  rfl

theorem parseObjItems_step (g : Nat) (k v : Str) (rest r2 : Str) (es : Jobj)
    (hk : k.all safeChar = true) (hv : v.all safeChar = true)
    (hrest : parseObjItems (g + 1) rest = some (es, r2)) :
    parseObjItems (g + 2) (printStr k ++ ':' :: printStr v ++ ',' :: rest) =
      some (.cons k (.str v) es, r2) := by
  have hshape : printStr k ++ ':' :: printStr v ++ ',' :: rest =
      '"' :: (k ++ '"' :: (':' :: (printStr v ++ ',' :: rest))) := by
    unfold printStr
    rw [escStr_safe k hk]
    simp
  have hlen : k.length < (k ++ '"' :: (':' :: (printStr v ++ ',' :: rest))).length + 1 := by
    simp
    omega
  rw [show g + 2 = (g + 1) + 1 from rfl, hshape, parseObjItems_succ_quote]
  rw [parseStrBody_safe k _ _ hk hlen]
  simp only [Option.some_bind]
  simp only [show skipWs (':' :: (printStr v ++ ',' :: rest)) =
    ':' :: (printStr v ++ ',' :: rest) from skipWs_cons _ _ (by decide)]
  rw [parseVal_str g v (',' :: rest) hv]
  simp only [Option.some_bind]
  simp only [show skipWs (',' :: rest) = ',' :: rest from skipWs_cons _ _ (by decide)]
  rw [hrest]
  rfl

theorem parseVal_succ_lbrace (fuel : Nat) (r : Str) :
    parseVal (fuel + 1) (lbraceC :: r) =
      (match skipWs r with
       | c2 :: r2 =>
         if c2 = rbraceC then some (.obj .nil, r2)
         else (parseObjItems fuel (c2 :: r2)).map (fun p => (.obj p.1, p.2))
       | [] => none) := rfl

theorem parseVal_succ_lbrack (fuel : Nat) (r : Str) :
    parseVal (fuel + 1) ('[' :: r) =
      (match skipWs r with
       | c2 :: r2 =>
         if c2 = ']' then some (.arr .nil, r2)
         else (parseArrItems fuel (c2 :: r2)).map (fun p => (.arr p.1, p.2))
       | [] => none) := rfl

theorem parseArrItems_eq (fuel : Nat) (s : Str) :
    parseArrItems (fuel + 1) s =
      (parseVal fuel s).bind (fun p =>
        match skipWs p.2 with
        | c2 :: r2 =>
          if c2 = ',' then (parseArrItems fuel r2).bind (fun q => some (.cons p.1 q.1, q.2))
          else if c2 = ']' then some (.cons p.1 .nil, r2)
          else none
        | [] => none) := rfl

theorem parseVal_card (g : Nat) (c : Card) (r : Str)
    (hn : c.name.all safeChar = true) (ht : c.type.all safeChar = true) :
    parseVal (g + 4) (printJval (.obj (cardToJobj c)) ++ r) =
      some (.obj (cardToJobj c), r) := by
  have hstep := parseObjItems_step (g + 1) "name".data c.name
      (printStr "type".data ++ ':' :: printStr c.type ++ rbraceC :: r) r
      (.cons "type".data (.str c.type) .nil) (by decide) hn
      (parseObjItems_single g "type".data c.type r (by decide) ht)
  have hobj : printJval (.obj (cardToJobj c)) ++ r =
      lbraceC :: (printStr "name".data ++ ':' :: printStr c.name ++
        ',' :: (printStr "type".data ++ ':' :: printStr c.type ++ rbraceC :: r)) := by
    simp [printJval, printObjItems, cardToJobj]
  have hB : printStr "name".data ++ ':' :: printStr c.name ++
      ',' :: (printStr "type".data ++ ':' :: printStr c.type ++ rbraceC :: r) =
      '"' :: ("name".data ++ '"' :: (':' :: printStr c.name ++
        ',' :: (printStr "type".data ++ ':' :: printStr c.type ++ rbraceC :: r))) := by
    rw [show printStr "name".data = '"' :: 'n' :: 'a' :: 'm' :: 'e' :: ['"'] from rfl]
    simp
  rw [show g + 4 = (g + 3) + 1 from rfl, hobj, parseVal_succ_lbrace]
  rw [hB]
  simp only [show skipWs ('"' :: ("name".data ++ '"' :: (':' :: printStr c.name ++
    ',' :: (printStr "type".data ++ ':' :: printStr c.type ++ rbraceC :: r)))) =
    '"' :: ("name".data ++ '"' :: (':' :: printStr c.name ++
    ',' :: (printStr "type".data ++ ':' :: printStr c.type ++ rbraceC :: r)))
    from skipWs_cons _ _ (by decide)]
  rw [if_neg (by decide)]
  rw [← hB, hstep]
  rfl

theorem parseArrItems_cards : ∀ (cs : List Card) (c : Card) (g : Nat) (r : Str),
    c.name.all safeChar = true → c.type.all safeChar = true →
    cardsSafe cs = true →
    parseArrItems (g + cs.length + 5) (printArrItems (cardsToJarr (c :: cs)) ++ ']' :: r) =
      some (cardsToJarr (c :: cs), r) := by
  intro cs
  induction cs with
  | nil =>
    intro c g r hn ht _
    have hshape : printArrItems (cardsToJarr [c]) ++ ']' :: r =
        printJval (.obj (cardToJobj c)) ++ ']' :: r := by
      simp [printArrItems, cardsToJarr]
    rw [show g + List.length [] + 5 = (g + 4) + 1 from by simp, hshape, parseArrItems_eq]
    rw [show g + 4 = g + 4 from rfl, parseVal_card g c (']' :: r) hn ht]
    simp only [Option.some_bind]
    simp only [show skipWs (']' :: r) = ']' :: r from skipWs_cons _ _ (by decide)]
    rfl
  | cons c2 cs2 ih =>
    intro c g r hn ht hsafe
    simp only [cardsSafe, List.all_cons, Bool.and_eq_true] at hsafe
    have hshape : printArrItems (cardsToJarr (c :: c2 :: cs2)) ++ ']' :: r =
        printJval (.obj (cardToJobj c)) ++
          ',' :: (printArrItems (cardsToJarr (c2 :: cs2)) ++ ']' :: r) := by
      simp [printArrItems, cardsToJarr]
    rw [show g + List.length (c2 :: cs2) + 5 = (g + cs2.length + 5) + 1 from by
      simp; omega, hshape, parseArrItems_eq]
    rw [show g + cs2.length + 5 = (g + cs2.length + 1) + 4 from by omega,
      parseVal_card (g + cs2.length + 1) c _ hn ht]
    simp only [Option.some_bind]
    simp only [show skipWs (',' :: (printArrItems (cardsToJarr (c2 :: cs2)) ++ ']' :: r)) =
      ',' :: (printArrItems (cardsToJarr (c2 :: cs2)) ++ ']' :: r)
      from skipWs_cons _ _ (by decide)]
    rw [show g + cs2.length + 1 + 4 = g + cs2.length + 5 from by omega]
    rw [ih c2 g r hsafe.1.1 hsafe.1.2 hsafe.2]
    rfl

theorem printStr_length (s : Str) : (printStr s).length = (escStr s).length + 2 := by
  simp [printStr]

theorem printCard_length (c : Card) : 21 ≤ (printJval (.obj (cardToJobj c))).length := by
  have h3 : (printStr "name".data).length = 6 := rfl
  have h4 : (printStr "type".data).length = 6 := rfl
  simp [printJval, printObjItems, cardToJobj, List.length_append, printStr_length, h3, h4]
  omega

theorem printArrItems_cards_length : ∀ (cs : List Card) (c : Card),
    cs.length + 21 ≤ (printArrItems (cardsToJarr (c :: cs))).length := by
  intro cs
  induction cs with
  | nil =>
    intro c
    have hc := printCard_length c
    simp [printArrItems, cardsToJarr]
    omega
  | cons c2 cs2 ih =>
    intro c
    have hc := printCard_length c
    have hi := ih c2
    simp only [printArrItems, cardsToJarr, List.length_append, List.length_cons] at hi ⊢
    omega

theorem sortObjEntries_card (c : Card) : sortObjEntries (cardToJobj c) = cardToJobj c := by
  simp [sortObjEntries, cardToJobj, objInsert,
    show strLeB "name".data "type".data = true from by decide]

theorem deepSortArr_cards : ∀ cards : List Card,
    deepSortArr (cardsToJarr cards) = cardsToJarr cards
  | [] => rfl
  | c :: cs => by
    show Jarr.cons (deepSort (.obj (cardToJobj c))) (deepSortArr (cardsToJarr cs)) =
      Jarr.cons (.obj (cardToJobj c)) (cardsToJarr cs)
    rw [deepSortArr_cards cs]
    rw [show deepSort (.obj (cardToJobj c)) =
      .obj (sortObjEntries (deepSortObj (cardToJobj c))) from rfl]
    rw [show deepSortObj (cardToJobj c) = cardToJobj c from rfl]
    rw [sortObjEntries_card]

theorem deepSort_cards (cards : List Card) :
    deepSort (.arr (cardsToJarr cards)) = .arr (cardsToJarr cards) := by
  show Jval.arr (deepSortArr (cardsToJarr cards)) = _
  rw [deepSortArr_cards cards]

theorem parse_marshal_cards (cards : List Card) (h : cardsSafe cards = true) :
    parseJson (marshalJval (.arr (cardsToJarr cards))) = some (.arr (cardsToJarr cards)) := by
  cases cards with
  | nil => rfl
  | cons c cs =>
    simp only [cardsSafe, List.all_cons, Bool.and_eq_true] at h
    rw [show marshalJval (.arr (cardsToJarr (c :: cs))) =
      printJval (.arr (cardsToJarr (c :: cs))) from by
        rw [marshalJval, deepSort_cards]]
    have hshape : printJval (.arr (cardsToJarr (c :: cs))) =
        '[' :: (printArrItems (cardsToJarr (c :: cs)) ++ ']' :: []) := by
      simp [printJval]
    have hlen := printArrItems_cards_length cs c
    obtain ⟨g, hg⟩ : ∃ g, (printArrItems (cardsToJarr (c :: cs)) ++ ']' :: []).length + 1 =
        g + cs.length + 5 + 1 := ⟨(printArrItems (cardsToJarr (c :: cs))).length - cs.length - 4,
          by simp [List.length_append]; omega⟩
    unfold parseJson
    rw [hshape]
    rw [show ('[' :: (printArrItems (cardsToJarr (c :: cs)) ++ ']' :: [])).length + 1 =
      ((printArrItems (cardsToJarr (c :: cs)) ++ ']' :: []).length + 1) + 1 from by simp]
    rw [hg, parseVal_succ_lbrack]
    have hexp : printArrItems (cardsToJarr (c :: cs)) ++ ']' :: [] =
        lbraceC :: (printObjItems (cardToJobj c) ++ rbraceC ::
          ((match cardsToJarr cs with
            | Jarr.nil => ([] : Str)
            | Jarr.cons _ _ => ',' :: printArrItems (cardsToJarr cs)) ++ ']' :: [])) := by
      simp [printArrItems, cardsToJarr, printJval]
    rw [hexp]
    simp only [show ∀ t, skipWs (lbraceC :: t) = lbraceC :: t from
      fun t => skipWs_cons _ _ (by decide)]
    rw [if_neg (by decide)]
    rw [← hexp]
    rw [show g + cs.length + 6 = (g + 1) + cs.length + 5 from by omega]
    rw [parseArrItems_cards cs c (g + 1) [] h.1.1 h.1.2 h.2]
    rfl

theorem objToCard_card (c : Card) : objToCard (cardToJobj c) = (c, false) := by
  show objToCardAux (⟨[], []⟩, false) (cardToJobj c) = (c, false)
  simp only [cardToJobj, objToCardAux]
  rw [show setCardField (⟨[], []⟩ : Card) false "name".data (.str c.name) =
      ((⟨c.name, []⟩ : Card), false) from by
    unfold setCardField
    rw [if_pos (by decide)]]
  rw [show setCardField (⟨c.name, []⟩ : Card) false "type".data (.str c.type) =
      ((⟨c.name, c.type⟩ : Card), false) from by
    unfold setCardField
    rw [if_neg (by decide), if_pos (by decide)]]

theorem elemsToCards_cards : ∀ cards : List Card,
    elemsToCards (cardsToJarr cards) = (cards, false)
  | [] => rfl
  | c :: cs => by
    show ((elemToCard (.obj (cardToJobj c))).1 :: (elemsToCards (cardsToJarr cs)).1,
      (elemToCard (.obj (cardToJobj c))).2 || (elemsToCards (cardsToJarr cs)).2) = (c :: cs, false)
    rw [show elemToCard (.obj (cardToJobj c)) = objToCard (cardToJobj c) from rfl,
      objToCard_card, elemsToCards_cards cs]
    rfl

theorem unmarshal_marshal_cards (cards : List Card) (h : cardsSafe cards = true) :
    unmarshalCards (marshalJval (.arr (cardsToJarr cards))) = (cards, false) := by
  unfold unmarshalCards
  rw [parse_marshal_cards cards h]
  show elemsToCards (cardsToJarr cards) = (cards, false)
  exact elemsToCards_cards cards

theorem updBody_lookups (name scoreStr activeC : Str) (b : Bool) (cards : List Card) :
    jlookup (updBody name scoreStr activeC b cards) fUserName = some (.str name) ∧
    jlookup (updBody name scoreStr activeC b cards) fScore = some (.str scoreStr) ∧
    jlookup (updBody name scoreStr activeC b cards) fGameCards =
      some (.arr (cardsToJarr cards)) ∧
    jlookup (updBody name scoreStr activeC b cards) fHasDefuseCard = some (.bool b) ∧
    jlookup (updBody name scoreStr activeC b cards) fActiveCard = some (.str activeC) := by
  refine ⟨?_, ?_, ?_, ?_, ?_⟩ <;>
    simp [updBody, jlookup,
      show fUserName ≠ fScore from by decide,
      show fUserName ≠ fGameCards from by decide,
      show fUserName ≠ fHasDefuseCard from by decide,
      show fUserName ≠ fActiveCard from by decide,
      show fScore ≠ fGameCards from by decide,
      show fScore ≠ fHasDefuseCard from by decide,
      show fScore ≠ fActiveCard from by decide,
      show fGameCards ≠ fHasDefuseCard from by decide,
      show fGameCards ≠ fActiveCard from by decide,
      show fHasDefuseCard ≠ fActiveCard from by decide]

theorem upd_lookups (m : List (Str × Str)) (gv dv av sv : Str) :
    alookup (setFields m [(fGameCards, gv), (fHasDefuseCard, dv), (fActiveCard, av),
      (fScore, sv)]) fScore = some sv ∧
    alookup (setFields m [(fGameCards, gv), (fHasDefuseCard, dv), (fActiveCard, av),
      (fScore, sv)]) fGameCards = some gv ∧
    alookup (setFields m [(fGameCards, gv), (fHasDefuseCard, dv), (fActiveCard, av),
      (fScore, sv)]) fHasDefuseCard = some dv ∧
    alookup (setFields m [(fGameCards, gv), (fHasDefuseCard, dv), (fActiveCard, av),
      (fScore, sv)]) fActiveCard = some av := by
  have hsf : setFields m [(fGameCards, gv), (fHasDefuseCard, dv), (fActiveCard, av),
      (fScore, sv)] =
      aset (aset (aset (aset m fGameCards gv) fHasDefuseCard dv) fActiveCard av) fScore sv := by
    simp [setFields]
  rw [hsf]
  refine ⟨?_, ?_, ?_, ?_⟩
  · rw [alookup_aset_self]
  · rw [alookup_aset_ne _ _ _ _ (by decide), alookup_aset_ne _ _ _ _ (by decide),
      alookup_aset_ne _ _ _ _ (by decide), alookup_aset_self]
  · rw [alookup_aset_ne _ _ _ _ (by decide), alookup_aset_ne _ _ _ _ (by decide),
      alookup_aset_self]
  · rw [alookup_aset_ne _ _ _ _ (by decide), alookup_aset_self]

theorem updateGameDataModel_updBody (s : Store) (name scoreStr activeC : Str)
    (b : Bool) (cards : List Card) :
    updateGameDataModel (updBody name scoreStr activeC b cards) s =
      some (zaddS (hmsetS s name
        [(fGameCards, marshalJval (.arr (cardsToJarr cards))),
         (fHasDefuseCard, encBool b), (fActiveCard, activeC),
         (fScore, intRepr (goAtoiE scoreStr).1)]) name (goAtoiE scoreStr).1) := by
  obtain ⟨hb1, hb2, hb3, hb4, hb5⟩ := updBody_lookups name scoreStr activeC b cards
  simp only [updateGameDataModel, hb1, hb2, hb3, hb4, hb5, asStrD, asBoolD]

/-- C2: performing a well-formed PUT /game update (the multi-field hash
write followed by the leaderboard ZAdd) and then reading the player via the
GET handler returns exactly the written score, the same cards in the same
order, and the written hasDefuseCard flag, and the leaderboard snapshot
contains the (playerName, score) entry.  The cards hypothesis requires the
card strings to be free of characters that json.Marshal escapes. -/
theorem update_then_read_roundtrip (s : Store) (deck : List Str)
    (name scoreStr activeC : Str) (b : Bool) (cards : List Card)
    (hsafe : cardsSafe cards = true) :
    ∃ s2, updateGameDataModel (updBody name scoreStr activeC b cards) s = some s2 ∧
      (gameHandlerModel deck name s2).gameData.score = (goAtoiE scoreStr).1 ∧
      (gameHandlerModel deck name s2).gameData.gameCards = cards ∧
      (gameHandlerModel deck name s2).gameData.hasDefuseCard = b ∧
      (⟨name, (goAtoiE scoreStr).1⟩ : LeaderboardEntry) ∈
        (gameHandlerModel deck name s2).leaderboard := by
  refine ⟨_, updateGameDataModel_updBody s name scoreStr activeC b cards, ?_, ?_, ?_, ?_⟩
  all_goals
    have hr := goAtoiE_range scoreStr
    have hex : existsKey (zaddS (hmsetS s name
        [(fGameCards, marshalJval (.arr (cardsToJarr cards))),
         (fHasDefuseCard, encBool b), (fActiveCard, activeC),
         (fScore, intRepr (goAtoiE scoreStr).1)]) name (goAtoiE scoreStr).1) name = true := by
      rw [existsKey_zadd, existsKey_hmset_self]
    have hstay : ensureInit deck name (zaddS (hmsetS s name
        [(fGameCards, marshalJval (.arr (cardsToJarr cards))),
         (fHasDefuseCard, encBool b), (fActiveCard, activeC),
         (fScore, intRepr (goAtoiE scoreStr).1)]) name (goAtoiE scoreStr).1) =
        zaddS (hmsetS s name
        [(fGameCards, marshalJval (.arr (cardsToJarr cards))),
         (fHasDefuseCard, encBool b), (fActiveCard, activeC),
         (fScore, intRepr (goAtoiE scoreStr).1)]) name (goAtoiE scoreStr).1 := by
      unfold ensureInit
      rw [if_neg (by rw [hex]; simp)]
    obtain ⟨u1, u2, u3, u4⟩ := upd_lookups (hgetAll s name)
      (marshalJval (.arr (cardsToJarr cards))) (encBool b) activeC
      (intRepr (goAtoiE scoreStr).1)
  · -- score
    show (decodeGameData (hgetAll (ensureInit deck name _) name)).score = _
    rw [hstay, hgetAll_zadd, hgetAll_hmset_self, decodeGameData_eq]
    show (goAtoiE ((alookup (setFields (hgetAll s name) _) fScore).getD [])).1 = _
    rw [u1, Option.getD_some, goAtoiE_intRepr _ hr.1 hr.2]
  · -- cards
    show (decodeGameData (hgetAll (ensureInit deck name _) name)).gameCards = _
    rw [hstay, hgetAll_zadd, hgetAll_hmset_self, decodeGameData_eq]
    show (unmarshalCards ((alookup (setFields (hgetAll s name) _) fGameCards).getD [])).1 = _
    rw [u2, Option.getD_some, unmarshal_marshal_cards cards hsafe]
  · -- hasDefuseCard
    show (decodeGameData (hgetAll (ensureInit deck name _) name)).hasDefuseCard = _
    rw [hstay, hgetAll_zadd, hgetAll_hmset_self, decodeGameData_eq]
    show (goParseBoolE ((alookup (setFields (hgetAll s name) _) fHasDefuseCard).getD [])).1 = _
    rw [u3, Option.getD_some, goParseBoolE_encBool]
  · -- leaderboard membership
    show (⟨name, (goAtoiE scoreStr).1⟩ : LeaderboardEntry) ∈
      getLatestLeaderboard (ensureInit deck name _)
    rw [hstay, mem_getLatest_iff]
    exact (mem_zadd_iff _ _ _ _).mpr (Or.inl rfl)

/-- C2 witness: the spec's concrete instance, score 7 and cards [A, B]. -/
theorem update_then_read_roundtrip_witness :
    cardsSafe [⟨"A".data, "x".data⟩, ⟨"B".data, "y".data⟩] = true ∧
    ∃ s2, updateGameDataModel (updBody "alice".data "7".data [] true
        [⟨"A".data, "x".data⟩, ⟨"B".data, "y".data⟩]) emptyStore = some s2 ∧
      (gameHandlerModel [] "alice".data s2).gameData.score = 7 ∧
      (gameHandlerModel [] "alice".data s2).gameData.gameCards =
        [⟨"A".data, "x".data⟩, ⟨"B".data, "y".data⟩] ∧
      (gameHandlerModel [] "alice".data s2).gameData.hasDefuseCard = true ∧
      (⟨"alice".data, 7⟩ : LeaderboardEntry) ∈
        (gameHandlerModel [] "alice".data s2).leaderboard := by
  refine ⟨by decide, ?_⟩
  obtain ⟨s2, h1, h2, h3, h4, h5⟩ := update_then_read_roundtrip emptyStore []
    "alice".data "7".data [] true [⟨"A".data, "x".data⟩, ⟨"B".data, "y".data⟩] (by decide)
  have h7 : (goAtoiE "7".data).1 = 7 := by decide
  exact ⟨s2, h1, by rw [h2, h7], h3, h4, by rw [← h7]; exact h5⟩
